import Mathlib

/-!
# Verification of the Baseball-Statistics-II cleaning pipeline

This file gives a shallow embedding, in Lean 4, of the data-cleaning core of
the repository (`salary_cleaning.py`, `data_cleaning.py`, `baseball_scraper.py`)
and proves or refutes the frozen specification claims about it.

Python strings are modelled as `List Char` (the sources only ever feed ASCII
text through these paths).  Python `float` is modelled exactly: an IEEE-754
binary64 value is a sign, a 53-bit mantissa and a binary exponent, and
`float(str)` / `float * int` are correctly-rounded (round to nearest, ties to
even), which is precisely CPython's behaviour.  All definitions are structural
or fuel-based recursions so that every concrete run reduces in the kernel.
-/

namespace Py

/-- ASCII whitespace, the characters Python's `str.strip` removes on ASCII
input (space, tab, newline, carriage return, vertical tab, form feed). -/
def isSpaceChar (c : Char) : Bool :=
  c.toNat = 32 || c.toNat = 9 || c.toNat = 10 || c.toNat = 13 || c.toNat = 11 || c.toNat = 12

/-- Python `str.strip()` on a character list. -/
def pstrip (l : List Char) : List Char :=
  ((l.dropWhile isSpaceChar).reverse.dropWhile isSpaceChar).reverse

/-- ASCII decimal digit test (`'0' ≤ c ≤ '9'`). -/
def isDig (c : Char) : Bool := 48 ≤ c.toNat && c.toNat ≤ 57

/-- Value of a decimal digit character. -/
def digVal (c : Char) : ℕ := c.toNat - 48

/-- The decimal digit character for `d < 10`. -/
def digChar (d : ℕ) : Char := Char.ofNat (48 + d)

/-- ASCII lower-casing of one character, as Python `str.lower` does on ASCII. -/
def lowerChar (c : Char) : Char :=
  if 65 ≤ c.toNat && c.toNat ≤ 90 then Char.ofNat (c.toNat + 32) else c

/-- ASCII upper-casing of one character, as Python `str.upper` does on ASCII. -/
def upperChar (c : Char) : Char :=
  if 97 ≤ c.toNat && c.toNat ≤ 122 then Char.ofNat (c.toNat - 32) else c

def lower (l : List Char) : List Char := l.map lowerChar

/-- Python's `needle in hay` substring test. -/
def containsSub (hay needle : List Char) : Bool :=
  match hay with
  | [] => needle.isEmpty
  | _ :: t => needle.isPrefixOf hay || containsSub t needle

/-- Python `str.replace(c, '')`: delete every occurrence of one character. -/
def removeAll (ch : Char) (l : List Char) : List Char := l.filter (fun c => c ≠ ch)

/-- Case-insensitive (ASCII) equality of two character lists. -/
def ciEq (a b : List Char) : Bool := lower a == lower b

/-- Python exceptions that `clean_currency` can meet: `int()` of a NaN raises
`ValueError` (which the source catches), `int()` of an infinity raises
`OverflowError` (which it does not catch). -/
inductive PyExc where
  | valueError
  | overflowError
deriving DecidableEq, Repr

/-! ## Exact binary64 (`float`) model

A finite double is `(-1)^neg * mant * 2^exp`.  `doubleRoundPos N D` rounds the
positive rational `N/D` to the nearest double (ties to even), reporting `none`
on overflow to infinity; subnormal range is handled by clamping the scale at
`2^-1074`, exactly as IEEE-754 binary64 does. -/

/-- Fuel-driven floor of `log2` (the fuel is only ever consumed `log2 n`
times, so `log2floor n := log2fuel n n` is exact and kernel-reducible). -/
def log2fuel : ℕ → ℕ → ℕ
  | 0, _ => 0
  | f + 1, n => if n ≤ 1 then 0 else log2fuel f (n / 2) + 1

def log2floor (n : ℕ) : ℕ := log2fuel n n

/-- Does `N/D ≥ 2^e` hold (for `N, D ≥ 1` and a signed exponent)? -/
def fracGePow2 (N D : ℕ) (e : ℤ) : Bool :=
  if 0 ≤ e then D * 2 ^ e.toNat ≤ N else D ≤ N * 2 ^ (-e).toNat

/-- `⌊log2 (N/D)⌋` for positive naturals, via the two-candidate test. -/
def floorLog2Frac (N D : ℕ) : ℤ :=
  let c : ℤ := (log2floor N : ℤ) - (log2floor D : ℤ)
  if fracGePow2 N D c then c else c - 1

/-- Round `a / b` to the nearest natural, ties to even (`b ≥ 1`). -/
def roundTiesEvenDiv (a b : ℕ) : ℕ :=
  let q := a / b
  let r := a % b
  if 2 * r < b then q
  else if b < 2 * r then q + 1
  else if q % 2 = 0 then q else q + 1

/-- Does `v * 2^s ≥ 2^t` hold? -/
def dyadicGePow2 (v : ℕ) (s t : ℤ) : Bool :=
  if t ≤ s then 1 ≤ v else 2 ^ (t - s).toNat ≤ v

/-- Correctly round the positive rational `N/D` to binary64: result is
`some (mant, exp)` meaning `mant * 2^exp`, or `none` for overflow to `inf`.
Requires `N, D ≥ 1`. -/
def doubleRoundPos (N D : ℕ) : Option (ℕ × ℤ) :=
  let L := floorLog2Frac N D
  let s : ℤ := max (L - 52) (-1074)
  let v : ℕ :=
    if 0 ≤ s then roundTiesEvenDiv N (D * 2 ^ s.toNat)
    else roundTiesEvenDiv (N * 2 ^ (-s).toNat) D
  if dyadicGePow2 v s 1024 then none else some (v, s)

/-- A CPython `float` value: a finite double, a signed infinity, or NaN. -/
inductive PyFloat where
  | finite (neg : Bool) (mant : ℕ) (exp : ℤ)
  | inf (neg : Bool)
  | nan
deriving DecidableEq, Repr

/-- Round the signed rational `± N/D` into a `PyFloat`. -/
def mkFloat (neg : Bool) (N D : ℕ) : PyFloat :=
  if N = 0 then .finite neg 0 0
  else
    match doubleRoundPos N D with
    | none => .inf neg
    | some (v, s) => .finite neg v s

/-- The double nearest to the decimal value `± m * 10^e` (what CPython's
correctly-rounded `float(str)` produces). -/
def floatOfDecimal (neg : Bool) (m : ℕ) (e : ℤ) : PyFloat :=
  if 0 ≤ e then mkFloat neg (m * 10 ^ e.toNat) 1
  else mkFloat neg m (10 ^ (-e).toNat)

/-- IEEE multiplication of a `float` by the exact integer `k` (used for the
`num * 1_000_000` of the `"M"` suffix): the exact product, re-rounded. -/
def floatMulNat (f : PyFloat) (k : ℕ) : PyFloat :=
  match f with
  | .nan => .nan
  | .inf neg => if k = 0 then .nan else .inf neg
  | .finite neg m s =>
      if m * k = 0 then .finite neg 0 0
      else if 0 ≤ s then mkFloat neg (m * k * 2 ^ s.toNat) 1
      else mkFloat neg (m * k) (2 ^ (-s).toNat)

/-- Python `int(x)` on a `float`: truncation toward zero; raises
`OverflowError` on infinities and `ValueError` on NaN. -/
def pyIntOfFloat : PyFloat → Except PyExc ℤ
  | .finite neg m s =>
      let n : ℕ := if 0 ≤ s then m * 2 ^ s.toNat else m / 2 ^ (-s).toNat
      .ok (if neg then -(n : ℤ) else (n : ℤ))
  | .inf _ => .error .overflowError
  | .nan => .error .valueError

end Py

namespace Py

/-- Digit-group scanner for CPython's float literal grammar: consumes
`digit (digit | '_' digit)*` (PEP 515 underscores must sit between digits),
accumulating the value and the digit count.  Stops, leaving the rest, at the
first character that cannot extend the group. -/
def groupGo (acc cnt : ℕ) : List Char → ℕ × ℕ × List Char
  | [] => (acc, cnt, [])
  | c :: t =>
    if isDig c then groupGo (acc * 10 + digVal c) (cnt + 1) t
    else if c = '_' then
      match t with
      | d :: t2 => if isDig d then groupGo (acc * 10 + digVal d) (cnt + 1) t2
                   else (acc, cnt, c :: t)
      | [] => (acc, cnt, [c])
    else (acc, cnt, c :: t)

/-- Parse one digit group; fails unless the list starts with a digit. -/
def parseGroup (l : List Char) : Option (ℕ × ℕ × List Char) :=
  match l with
  | c :: _ => if isDig c then some (groupGo 0 0 l) else none
  | [] => none

/-- Consume an optional leading `'+'` or `'-'`, returning whether the value
is negated and the rest. -/
def splitSign (l : List Char) : Bool × List Char :=
  match l with
  | c :: r => if c = '+' then (false, r) else if c = '-' then (true, r) else (false, c :: r)
  | [] => (false, [])

/-- Parse the optional exponent part `('e'|'E') ['+'|'-'] digits` of a float
literal.  Returns the (signed) exponent and the rest; `none` means the
exponent marker was present but malformed (the whole literal is invalid). -/
def parseExp (l : List Char) : Option (ℤ × List Char) :=
  match l with
  | c :: t =>
    if c = 'e' || c = 'E' then
      let st := splitSign t
      match parseGroup st.2 with
      | some (v, _, rest) => some (if st.1 then -(v : ℤ) else (v : ℤ), rest)
      | none => none
    else some (0, c :: t)
  | [] => some (0, [])

/-- Parse the number body of a CPython float literal (sign already removed):
`digits ['.' [digits]] [exp]` or `'.' digits [exp]`, full consumption
required.  Returns the value as a decimal mantissa and exponent. -/
def parseNumber (l : List Char) : Option (ℕ × ℤ) :=
  match parseGroup l with
  | some (ip, _, r1) =>
    if r1.head? = some '.' then
      let r2 := r1.tail
      let g : ℕ × ℕ × List Char :=
        match parseGroup r2 with
        | some g => g
        | none => (0, 0, r2)
      match parseExp g.2.2 with
      | some (e, rest) =>
        if rest = [] then some (ip * 10 ^ g.2.1 + g.1, e - (g.2.1 : ℤ)) else none
      | none => none
    else
      match parseExp r1 with
      | some (e, rest) => if rest = [] then some (ip, e) else none
      | none => none
  | none =>
    if l.head? = some '.' then
      match parseGroup l.tail with
      | some (fp, fd, r3) =>
        match parseExp r3 with
        | some (e, rest) =>
          if rest = [] then some (fp, e - (fd : ℤ)) else none
        | none => none
      | none => none
    else none

/-- CPython `float(s)`: strip whitespace, optional sign, then `inf`,
`infinity`, `nan` (case-insensitive) or a decimal literal, which is rounded
to the nearest binary64.  `none` models `ValueError`. -/
def pyFloatOfChars (l : List Char) : Option PyFloat :=
  let st := splitSign (pstrip l)
  let neg := st.1
  let l2 := st.2
  if ciEq l2 ['i', 'n', 'f'] || ciEq l2 ['i', 'n', 'f', 'i', 'n', 'i', 't', 'y'] then
    some (.inf neg)
  else if ciEq l2 ['n', 'a', 'n'] then some .nan
  else
    match parseNumber l2 with
    | some (m, e) => some (floatOfDecimal neg m e)
    | none => none

end Py

namespace SalaryCleaning

open Py

/-- `SalaryDataCleaner.clean_currency` (salary_cleaning.py:263-301) on a
string cell.  Faithful translation: sentinel tokens first, then `$`/space
removal, the `M`-suffix branch (whose `ValueError`s are caught and fall
through), then comma removal and `int(float(...))` with only `ValueError`
caught — so an infinite float value raises `OverflowError` (`.error`). -/
def clean_currency (value : String) : Except PyExc (Option ℤ) :=
  let vs := pstrip value.data
  if vs = [] || vs = ['-'] || vs = "N/A".data || vs = "nan".data || vs = "None".data then
    .ok none
  else
    let vs := removeAll ' ' (removeAll '$' vs)
    let mRes : Option (Except PyExc (Option ℤ)) :=
      if (vs.getLast?.map upperChar) = some 'M' then
        match pyFloatOfChars (removeAll ',' vs.dropLast) with
        | some f =>
          match pyIntOfFloat (floatMulNat f 1000000) with
          | .ok n => some (.ok (some n))
          | .error .valueError => none  -- caught by `except ValueError: pass`
          | .error .overflowError => some (.error .overflowError)
        | none => none  -- `float` raised ValueError: caught, falls through
      else none
    match mRes with
    | some r => r
    | none =>
      let vs2 := removeAll ',' vs
      match pyFloatOfChars vs2 with
      | none => .ok none
      | some f =>
        match pyIntOfFloat f with
        | .ok n => .ok (some n)
        | .error .valueError => .ok none
        | .error .overflowError => .error .overflowError

/-- `clean_currency` on a cell that may be missing (`pd.isna` guard). -/
def cleanCurrencyCell (cell : Option String) : Except PyExc (Option ℤ) :=
  match cell with
  | none => .ok none
  | some s => clean_currency s

end SalaryCleaning

/-- Decidable equality for `Except`, so concrete runs can be settled by
`decide`. -/
instance {α β : Type} [DecidableEq α] [DecidableEq β] : DecidableEq (Except α β) :=
  fun a b =>
    match a, b with
    | .ok x, .ok y => if h : x = y then isTrue (by rw [h]) else isFalse (by simp [h])
    | .error x, .error y => if h : x = y then isTrue (by rw [h]) else isFalse (by simp [h])
    | .ok _, .error _ => isFalse (by simp)
    | .error _, .ok _ => isFalse (by simp)

namespace SalaryCleaning

open Py

/-- `TEAM_NAME_MAPPINGS` (salary_cleaning.py:21-142), in source (insertion)
order — the order matters for the partial-matching fallback. -/
def TEAM_NAME_MAPPINGS : List (String × String) := [
  ("Oakland Athletics", "Athletics"),
  ("Oakland A\'s", "Athletics"),
  ("Oakland", "Athletics"),
  ("A\'s", "Athletics"),
  ("Athletics", "Athletics"),
  ("Cleveland Indians", "Cleveland Guardians"),
  ("Cleveland", "Cleveland Guardians"),
  ("Indians", "Cleveland Guardians"),
  ("Guardians", "Cleveland Guardians"),
  ("Florida Marlins", "Miami Marlins"),
  ("Florida", "Miami Marlins"),
  ("Marlins", "Miami Marlins"),
  ("Montreal Expos", "Washington Nationals"),
  ("Montreal", "Washington Nationals"),
  ("Expos", "Washington Nationals"),
  ("Washington", "Washington Nationals"),
  ("Nationals", "Washington Nationals"),
  ("Tampa Bay Devil Rays", "Tampa Bay Rays"),
  ("Devil Rays", "Tampa Bay Rays"),
  ("Tampa Bay", "Tampa Bay Rays"),
  ("Rays", "Tampa Bay Rays"),
  ("Anaheim Angels", "Los Angeles Angels"),
  ("California Angels", "Los Angeles Angels"),
  ("Los Angeles Angels of Anaheim", "Los Angeles Angels"),
  ("Anaheim", "Los Angeles Angels"),
  ("LA Angels", "Los Angeles Angels"),
  ("Angels", "Los Angeles Angels"),
  ("NY Yankees", "New York Yankees"),
  ("N.Y. Yankees", "New York Yankees"),
  ("Yankees", "New York Yankees"),
  ("NY Mets", "New York Mets"),
  ("N.Y. Mets", "New York Yankees"),
  ("Mets", "New York Mets"),
  ("LA Dodgers", "Los Angeles Dodgers"),
  ("Los Angeles", "Los Angeles Dodgers"),
  ("Dodgers", "Los Angeles Dodgers"),
  ("SF Giants", "San Francisco Giants"),
  ("San Francisco", "San Francisco Giants"),
  ("Giants", "San Francisco Giants"),
  ("SD Padres", "San Diego Padres"),
  ("San Diego", "San Diego Padres"),
  ("Padres", "San Diego Padres"),
  ("Boston", "Boston Red Sox"),
  ("Red Sox", "Boston Red Sox"),
  ("Chicago Cubs", "Chicago Cubs"),
  ("Cubs", "Chicago Cubs"),
  ("Chicago White Sox", "Chicago White Sox"),
  ("Ch. White Sox", "Chicago White Sox"),
  ("White Sox", "Chicago White Sox"),
  ("Philadelphia", "Philadelphia Phillies"),
  ("Phillies", "Philadelphia Phillies"),
  ("Houston", "Houston Astros"),
  ("Astros", "Houston Astros"),
  ("Atlanta", "Atlanta Braves"),
  ("Braves", "Atlanta Braves"),
  ("St. Louis", "St. Louis Cardinals"),
  ("St Louis Cardinals", "St. Louis Cardinals"),
  ("Cardinals", "St. Louis Cardinals"),
  ("Texas", "Texas Rangers"),
  ("Rangers", "Texas Rangers"),
  ("Seattle", "Seattle Mariners"),
  ("Mariners", "Seattle Mariners"),
  ("Detroit", "Detroit Tigers"),
  ("Tigers", "Detroit Tigers"),
  ("Baltimore", "Baltimore Orioles"),
  ("Orioles", "Baltimore Orioles"),
  ("Minnesota", "Minnesota Twins"),
  ("Twins", "Minnesota Twins"),
  ("Kansas City", "Kansas City Royals"),
  ("KC Royals", "Kansas City Royals"),
  ("Royals", "Kansas City Royals"),
  ("Colorado", "Colorado Rockies"),
  ("Rockies", "Colorado Rockies"),
  ("Arizona", "Arizona Diamondbacks"),
  ("Diamondbacks", "Arizona Diamondbacks"),
  ("D-backs", "Arizona Diamondbacks"),
  ("Cincinnati", "Cincinnati Reds"),
  ("Reds", "Cincinnati Reds"),
  ("Pittsburgh", "Pittsburgh Pirates"),
  ("Pirates", "Pittsburgh Pirates"),
  ("Milwaukee", "Milwaukee Brewers"),
  ("Brewers", "Milwaukee Brewers"),
  ("Toronto", "Toronto Blue Jays"),
  ("Blue Jays", "Toronto Blue Jays")]

/-- `VALID_TEAM_NAMES` (salary_cleaning.py:145-176): the 30 canonical
2025-era team identities. -/
def VALID_TEAM_NAMES : List String := [
  "Arizona Diamondbacks", "Athletics", "Atlanta Braves", "Baltimore Orioles",
  "Boston Red Sox", "Chicago Cubs", "Chicago White Sox", "Cincinnati Reds",
  "Cleveland Guardians", "Colorado Rockies", "Detroit Tigers",
  "Houston Astros", "Kansas City Royals", "Los Angeles Angels",
  "Los Angeles Dodgers", "Miami Marlins", "Milwaukee Brewers",
  "Minnesota Twins", "New York Mets", "New York Yankees",
  "Philadelphia Phillies", "Pittsburgh Pirates", "San Diego Padres",
  "San Francisco Giants", "Seattle Mariners", "St. Louis Cardinals",
  "Tampa Bay Rays", "Texas Rangers", "Toronto Blue Jays",
  "Washington Nationals"]

/-- `re.sub(r'^[\d]+\.?\s*', '', name)`: strip a leading rank number —
one or more digits, an optional dot, then any whitespace.  No leading digit
means no match, so the string is unchanged. -/
def stripRankNum (l : List Char) : List Char :=
  match l with
  | c :: _ =>
    if isDig c then
      let r1 := l.dropWhile isDig
      let r2 := match r1 with
                | '.' :: t => t
                | _ => r1
      r2.dropWhile isSpaceChar
    else l
  | [] => l

/-- First value in an association list whose key equals `k` (Python
`k in dict` / `dict[k]` over the insertion-ordered mapping). -/
def assocFind (m : List (String × String)) (k : String) : Option String :=
  (m.find? (fun p => p.1 == k)).map (·.2)

/-- `SalaryDataCleaner.standardize_team_name` (salary_cleaning.py:303-337)
on a present (non-NaN) string: strip, strip the rank prefix and re-strip,
then direct mapping, then the canonical list, then the case-insensitive
partial (substring either way) match in mapping order, else the input
unchanged. -/
def standardizeCore (s : String) : String :=
  let n : String := String.mk (pstrip (stripRankNum (pstrip s.data)))
  match assocFind TEAM_NAME_MAPPINGS n with
  | some v => v
  | none =>
    if VALID_TEAM_NAMES.contains n then n
    else
      let nl := lower n.data
      match TEAM_NAME_MAPPINGS.find?
          (fun p => containsSub nl (lower p.1.data) || containsSub (lower p.1.data) nl) with
      | some p => p.2
      | none => n

/-- `standardize_team_name` including the `pd.isna` guard (`None` in,
`None` out). -/
def standardize_team_name (name : Option String) : Option String :=
  name.map standardizeCore

end SalaryCleaning

namespace SalaryCleaning

open Py

/-- One column of a pandas DataFrame: a header label and the cells top to
bottom (`none` is a missing value, `NaN`). -/
structure Column where
  header : String
  cells : List (Option String)
deriving DecidableEq, Repr

/-- A DataFrame, column-major (pandas stores and iterates columns; rows are
recovered positionally).  Well-formed tables have equal column lengths. -/
abbrev Table := List Column

/-- `len(df)`: the number of rows (length of the first column). -/
def nRows (t : Table) : ℕ :=
  match t with
  | [] => 0
  | c :: _ => c.cells.length

/-- The cells of `df[h]` (first column with that label). -/
def getColCells (t : Table) (h : String) : List (Option String) :=
  match t.find? (fun c => c.header == h) with
  | some c => c.cells
  | none => []

/-- Cell at row `i` of column `h`. -/
def cellAt (t : Table) (h : String) (i : ℕ) : Option String :=
  (getColCells t h).getD i none

/-- Keep the entries of `l` whose mask bit is set. -/
def applyMask {α : Type} (mask : List Bool) (l : List α) : List α :=
  (mask.zip l).filterMap (fun p => if p.1 then some p.2 else none)

/-- Row `i` of the table, as the list of its cells across columns. -/
def rowCells (t : Table) (i : ℕ) : List (Option String) :=
  t.map (fun c => c.cells.getD i none)

/-- `df.dropna(how='all')`: drop the rows whose cells are all missing. -/
def dropnaAll (t : Table) : Table :=
  let mask := (List.range (nRows t)).map (fun i => (rowCells t i).any (fun c => c.isSome))
  t.map (fun c => { c with cells := applyMask mask c.cells })

/-- `str(x)` of a first-column cell after `.astype(str)` (pandas renders a
missing value as the string `"nan"`). -/
def cellAstype (c : Option String) : String :=
  match c with
  | some s => s
  | none => "nan"

/-- Does the first-column text match the repeated-header / aggregate-row
regex `'league|average|avg|total|rank'` (case-insensitive)? -/
def isJunkFirstCell (c : Option String) : Bool :=
  let sl := lower (cellAstype c).data
  ["league", "average", "avg", "total", "rank"].any (fun kw => containsSub sl kw.data)

/-- `df[~df.iloc[:, 0].astype(str).str.contains('league|average|avg|total|rank',
case=False, na=False)]` — drop rows whose first-column value matches. -/
def dropJunkRows (t : Table) : Table :=
  let firstCol : List (Option String) :=
    match t with
    | [] => []
    | c :: _ => c.cells
  let mask := firstCol.map (fun c => !isJunkFirstCell c)
  t.map (fun c => { c with cells := applyMask mask c.cells })

/-- Does a header contain one of the keywords (lower-cased substring test)? -/
def headerHasAny (h : String) (kws : List String) : Bool :=
  let hl := lower h.data
  kws.any (fun kw => containsSub hl kw.data)

/-- How many of the first 10 present cells, after stripping a rank prefix,
are known team names (`identify_team_column`'s sampling loop). -/
def sampleMatches (cells : List (Option String)) : ℕ :=
  ((cells.filterMap id).take 10).countP (fun s =>
    let cv := String.mk (pstrip (stripRankNum s.data))
    TEAM_NAME_MAPPINGS.any (fun p => p.1 == cv) || VALID_TEAM_NAMES.contains cv)

/-- `SalaryDataCleaner.identify_team_column` (salary_cleaning.py:339-381):
first header containing a team keyword; else the first column if ≥ 3 of its
sampled values are team names; else the first such column; else the first
column. -/
def identify_team_column (t : Table) : String :=
  match t.find? (fun c => headerHasAny c.header ["team", "tm", "name", "club"]) with
  | some c => c.header
  | none =>
    let first := (t.head?.map (fun c => c.header)).getD ""
    let firstCells := (t.head?.map (fun c => c.cells)).getD []
    if 3 ≤ sampleMatches firstCells then first
    else
      match t.find? (fun c => 3 ≤ sampleMatches c.cells) with
      | some c => c.header
      | none => first

/-- Parse every cell of a column with `clean_currency`, keeping the non-null
results in row order; a raising cell aborts the whole column (`df[col].apply`
propagates, caught by the caller's `except`). -/
def parseCells : List (Option String) → Except PyExc (List ℤ)
  | [] => .ok []
  | c :: t =>
    match cleanCurrencyCell c with
    | .error e => .error e
    | .ok none => parseCells t
    | .ok (some v) =>
      match parseCells t with
      | .error e => .error e
      | .ok vs => .ok (v :: vs)

/-- Maximum of a list of integers (`Series.max`); 0 only for the unused
empty case. -/
def maxList : List ℤ → ℤ
  | [] => 0
  | v :: t => t.foldl max v

/-- Stable ascending insertion. -/
def insertAsc (x : ℤ) : List ℤ → List ℤ
  | [] => [x]
  | y :: t => if x ≤ y then x :: y :: t else y :: insertAsc x t

def sortAsc (l : List ℤ) : List ℤ := l.foldr insertAsc []

/-- Twice the median of a list (`Series.median` doubled, so the pandas
half-integer median of an even-length list stays in `ℤ`): the middle sorted
element doubled, or the sum of the two middle sorted elements. -/
def median2 (l : List ℤ) : ℤ :=
  let s := sortAsc l
  let n := s.length
  if n % 2 = 1 then 2 * s.getD (n / 2) 0
  else s.getD (n / 2 - 1) 0 + s.getD (n / 2) 0

/-- A payroll-column candidate `(col, max_val, priority)`. -/
structure Cand where
  col : String
  maxVal : ℤ
  priority : ℕ
deriving DecidableEq, Repr

def avoidKws : List String := ["average", "avg", "median", "mean", "per", "minimum", "min"]

def payrollKws : List String := ["payroll", "total", "salary", "opening"]

/-- The threshold pass of `identify_payroll_column`: skip the team column
and avoid-keyword headers; a column with ≥ 10 parsed values qualifies when
its max exceeds 10,000,000 and its median exceeds 5,000,000; priority 2 with
a payroll keyword in the header, else 1.  A raising column is skipped by the
`except Exception: continue`. -/
def primaryCandOf (teamCol : String) (c : Column) : Option Cand :=
  if c.header == teamCol then none
  else if headerHasAny c.header avoidKws then none
  else
    match parseCells c.cells with
    | .error _ => none
    | .ok valid =>
      if valid.length < 10 then none
      else
        let mx := maxList valid
        if 10000000 < mx ∧ 10000000 < median2 valid then
          some ⟨c.header, mx, if headerHasAny c.header payrollKws then 2 else 1⟩
        else none

def primaryCands (t : Table) (teamCol : String) : List Cand :=
  t.filterMap (primaryCandOf teamCol)

/-- The fallback pass: any non-team column with ≥ 10 parsed values and a
positive max, at priority 0. -/
def fallbackCandOf (teamCol : String) (c : Column) : Option Cand :=
  if c.header == teamCol then none
  else
    match parseCells c.cells with
    | .error _ => none
    | .ok valid =>
      if valid.length < 10 then none
      else
        let mx := maxList valid
        if 0 < mx then some ⟨c.header, mx, 0⟩ else none

def fallbackCands (t : Table) (teamCol : String) : List Cand :=
  t.filterMap (fallbackCandOf teamCol)

/-- Is `d`'s key `(priority, maxVal)` strictly greater than `b`'s? -/
def candLt (b d : Cand) : Bool :=
  b.priority < d.priority || (b.priority == d.priority && b.maxVal < d.maxVal)

/-- First candidate with the lexicographically largest `(priority, maxVal)`:
Python's stable `sort(key=(priority, max), reverse=True)` followed by
`[0]` keeps the earliest among ties. -/
def pickBest : List Cand → Option Cand
  | [] => none
  | c :: t => some (t.foldl (fun b d => if candLt b d then d else b) c)

/-- `SalaryDataCleaner.identify_payroll_column` (salary_cleaning.py:383-455). -/
def identify_payroll_column (t : Table) (teamCol : String) : Option String :=
  let cands := primaryCands t teamCol
  let cands := if cands.isEmpty then fallbackCands t teamCol else cands
  (pickBest cands).map (fun c => c.col)

end SalaryCleaning

namespace SalaryCleaning

open Py

/-- One cleaned output row: a team and its payroll. -/
structure Record where
  tm : String
  payroll : ℤ
deriving DecidableEq, Repr

/-- What `clean_dataframe` produces besides records: the `⚠ Unrecognized
team` warnings it prints (the standardized names that match nothing). -/
structure CleanResult where
  records : List Record
  warnings : List String
deriving DecidableEq, Repr

/-- Stable insertion keeping the list sorted by payroll descending (later
equal payrolls go after earlier ones; `sort_values` ties are otherwise
implementation-defined in pandas, and no theorem below depends on a tie). -/
def insertDesc (x : Record) : List Record → List Record
  | [] => [x]
  | y :: t => if y.payroll < x.payroll then x :: y :: t else y :: insertDesc x t

def sortDesc (l : List Record) : List Record :=
  l.foldl (fun acc x => insertDesc x acc) []

/-- The body of `clean_dataframe`'s row loop for one row: standardize the
team cell, currency-parse the payroll cell (which can raise), keep the row
only when the team is truthy, the payroll truthy and positive, and the team
validates against the canonical list (directly or by substring); an
unmatched team longer than 3 characters is reported, and its row dropped. -/
def rowStep (traw praw : Option String) : Except PyExc (Option Record × Option String) :=
  match cleanCurrencyCell praw with
  | .error e => .error e
  | .ok pay =>
    .ok (match standardize_team_name traw with
      | none => (none, none)
      | some tn =>
        match pay with
        | none => (none, none)
        | some v =>
          if tn = "" || v ≤ 0 then (none, none)
          else if VALID_TEAM_NAMES.contains tn then (some ⟨tn, v⟩, none)
          else
            match VALID_TEAM_NAMES.find? (fun valid =>
                containsSub (lower valid.data) (lower tn.data) ||
                containsSub (lower tn.data) (lower valid.data)) with
            | some v' => (some ⟨v', v⟩, none)
            | none => if 3 < tn.length then (none, some tn) else (none, none))

/-- The row loop of `clean_dataframe` over row indices. -/
def rowLoop (t : Table) (teamCol payrollCol : String) :
    List ℕ → Except PyExc (List Record × List String)
  | [] => .ok ([], [])
  | i :: rest =>
    match rowStep (cellAt t teamCol i) (cellAt t payrollCol i) with
    | .error e => .error e
    | .ok (rec?, warn?) =>
      match rowLoop t teamCol payrollCol rest with
      | .error e => .error e
      | .ok (rs, ws) => .ok (rec?.toList ++ rs, warn?.toList ++ ws)

/-- `SalaryDataCleaner.clean_dataframe` (salary_cleaning.py:457-531):
drop all-missing rows, drop aggregate/header rows by the first column,
identify the team and payroll columns, run the row loop, and emit the
surviving records sorted by payroll descending; `none` models the `None`
returns (empty input, no payroll column, or no valid rows). -/
def clean_dataframe (t : Table) : Except PyExc (Option CleanResult) :=
  if t.isEmpty || nRows t = 0 then .ok none
  else
    let t2 := dropJunkRows (dropnaAll t)
    let teamCol := identify_team_column t2
    match identify_payroll_column t2 teamCol with
    | none => .ok none
    | some payrollCol =>
      match rowLoop t2 teamCol payrollCol (List.range (nRows t2)) with
      | .error e => .error e
      | .ok (rs, ws) =>
        if rs.isEmpty then .ok none
        else .ok (some ⟨sortDesc rs, ws⟩)

/-- `HARDCODED_1998` (salary_cleaning.py:183-214): the curated 1998 payroll
override set, verbatim. -/
def HARDCODED_1998 : List Record := [
  ⟨"Baltimore Orioles", 71860921⟩, ⟨"New York Yankees", 65663698⟩,
  ⟨"Los Angeles Dodgers", 62806667⟩, ⟨"Atlanta Braves", 61708000⟩,
  ⟨"Texas Rangers", 60519595⟩, ⟨"Cleveland Guardians", 59543165⟩,
  ⟨"Boston Red Sox", 59497000⟩, ⟨"New York Mets", 58660665⟩,
  ⟨"San Diego Padres", 53066166⟩, ⟨"Chicago Cubs", 49816000⟩,
  ⟨"San Francisco Giants", 48514715⟩, ⟨"Los Angeles Angels", 48389000⟩,
  ⟨"Houston Astros", 48304000⟩, ⟨"Colorado Rockies", 47714648⟩,
  ⟨"St. Louis Cardinals", 44090854⟩, ⟨"Seattle Mariners", 43698136⟩,
  ⟨"Kansas City Royals", 35610000⟩, ⟨"Chicago White Sox", 35180000⟩,
  ⟨"Toronto Blue Jays", 34158500⟩, ⟨"Milwaukee Brewers", 31897903⟩,
  ⟨"Arizona Diamondbacks", 31614500⟩, ⟨"Philadelphia Phillies", 28622500⟩,
  ⟨"Tampa Bay Rays", 27370000⟩, ⟨"Minnesota Twins", 24527500⟩,
  ⟨"Athletics", 22463500⟩, ⟨"Cincinnati Reds", 20707333⟩,
  ⟨"Detroit Tigers", 19237500⟩, ⟨"Miami Marlins", 15141000⟩,
  ⟨"Pittsburgh Pirates", 13695000⟩, ⟨"Washington Nationals", 8317000⟩]

/-- `HARDCODED_1999` (salary_cleaning.py:216-247). -/
def HARDCODED_1999 : List Record := [
  ⟨"New York Yankees", 88180712⟩, ⟨"Texas Rangers", 81576598⟩,
  ⟨"Atlanta Braves", 74890000⟩, ⟨"Cleveland Guardians", 73278458⟩,
  ⟨"Baltimore Orioles", 72198363⟩, ⟨"Boston Red Sox", 71725000⟩,
  ⟨"New York Mets", 71506427⟩, ⟨"Los Angeles Dodgers", 71115786⟩,
  ⟨"Arizona Diamondbacks", 70496000⟩, ⟨"Chicago Cubs", 55443500⟩,
  ⟨"Colorado Rockies", 54442505⟩, ⟨"Houston Astros", 54339000⟩,
  ⟨"Los Angeles Angels", 49868167⟩, ⟨"Toronto Blue Jays", 48455333⟩,
  ⟨"St. Louis Cardinals", 46173195⟩, ⟨"San Francisco Giants", 45959557⟩,
  ⟨"San Diego Padres", 45832180⟩, ⟨"Seattle Mariners", 44396336⟩,
  ⟨"Milwaukee Brewers", 42927395⟩, ⟨"Cincinnati Reds", 42142761⟩,
  ⟨"Tampa Bay Rays", 38027500⟩, ⟨"Detroit Tigers", 34959667⟩,
  ⟨"Philadelphia Phillies", 30568167⟩, ⟨"Chicago White Sox", 24535000⟩,
  ⟨"Athletics", 24175333⟩, ⟨"Pittsburgh Pirates", 24167667⟩,
  ⟨"Kansas City Royals", 16557000⟩, ⟨"Washington Nationals", 16413000⟩,
  ⟨"Minnesota Twins", 16345000⟩, ⟨"Miami Marlins", 15150000⟩]

/-- The outcome of `process_file`: its `(success, row_count)` return and, as
the observable effect, the record set written to the CSV (`none` when
nothing was written). -/
structure ProcessResult where
  success : Bool
  count : ℕ
  written : Option (List Record)
deriving DecidableEq, Repr

/-- `SalaryDataCleaner.process_file` (salary_cleaning.py:533-581): for 1998
and 1999 the curated override set is written unconditionally, before the CSV
is even read; otherwise the scraped table (whose read may itself fail,
modelled by `.error`) is cleaned, and any exception yields `(False, 0)`. -/
def process_file (year : ℤ) (input : Except Unit Table) : ProcessResult :=
  if year = 1998 then ⟨true, HARDCODED_1998.length, some HARDCODED_1998⟩
  else if year = 1999 then ⟨true, HARDCODED_1999.length, some HARDCODED_1999⟩
  else
    match input with
    | .error _ => ⟨false, 0, none⟩
    | .ok df =>
      match clean_dataframe df with
      | .error _ => ⟨false, 0, none⟩
      | .ok none => ⟨false, 0, none⟩
      | .ok (some res) =>
        if res.records.isEmpty then ⟨false, 0, none⟩
        else ⟨true, res.records.length, some res.records⟩

end SalaryCleaning

namespace Py

/-- Python `str.replace(old, new)` scanner: left-to-right, non-overlapping;
the fuel (the string's length, consumed one step at a time while each step
advances at least one character for non-empty `old`) keeps it structural. -/
def replGo (old new : List Char) : ℕ → List Char → List Char
  | _, [] => []
  | 0, s => s
  | f + 1, c :: rest =>
    if old.isPrefixOf (c :: rest) then new ++ replGo old new f ((c :: rest).drop old.length)
    else c :: replGo old new f rest

/-- Python `str.replace(old, new)` for non-empty `old` (the only way the
sources call it). -/
def pyReplace (old new s : List Char) : List Char :=
  match old with
  | [] => s
  | _ :: _ => replGo old new s.length s

/-- A regex word character (`\w` over the ASCII inputs of this corpus). -/
def isWordChar (c : Char) : Bool :=
  isDig c || (65 ≤ c.toNat && c.toNat ≤ 90) || (97 ≤ c.toNat && c.toNat ≤ 122) || c = '_'

/-- Consume `tok` case-insensitively from the front of `s`, returning the
rest, or `none` if it does not match there. -/
def stripCI : List Char → List Char → Option (List Char)
  | [], s => some s
  | _ :: _, [] => none
  | p :: ps, c :: cs => if lowerChar p = lowerChar c then stripCI ps cs else none

/-- The lookahead `(?=[\d\.\-]|$)`: end of string, a digit, a dot or a
hyphen. -/
def followOk : List Char → Bool
  | [] => true
  | c :: _ => isDig c || c = '.' || c = '-'

/-- `re.sub(r'\b' + tok + r'(?=[\d\.\-]|$)', new, s, flags=IGNORECASE)` for
a letters-only token: scan left to right over the original string; a match
needs a non-word character (or the start) just before it and the lookahead
just after, and scanning resumes after the matched token. -/
def subGo (tok new : List Char) : ℕ → Bool → List Char → List Char
  | _, _, [] => []
  | 0, _, s => s
  | f + 1, prevWord, c :: rest =>
    if !prevWord then
      match stripCI tok (c :: rest) with
      | some r =>
        if followOk r then new ++ subGo tok new f true r
        else c :: subGo tok new f (isWordChar c) rest
      | none => c :: subGo tok new f (isWordChar c) rest
    else c :: subGo tok new f (isWordChar c) rest

def reSubTokenCI (tok new s : List Char) : List Char :=
  match tok with
  | [] => s
  | _ :: _ => subGo tok new s.length false s

end Py

namespace DataCleaning

open Py

/-- `STANDARD_TEAM_NAMES` (data_cleaning.py:18-49): the 2025 canonical
names, mapped to themselves. -/
def STANDARD_TEAM_NAMES : List (String × String) := [
  ("Arizona Diamondbacks", "Arizona Diamondbacks"), ("Athletics", "Athletics"),
  ("Atlanta Braves", "Atlanta Braves"), ("Baltimore Orioles", "Baltimore Orioles"),
  ("Boston Red Sox", "Boston Red Sox"), ("Chicago Cubs", "Chicago Cubs"),
  ("Chicago White Sox", "Chicago White Sox"), ("Cincinnati Reds", "Cincinnati Reds"),
  ("Cleveland Guardians", "Cleveland Guardians"), ("Colorado Rockies", "Colorado Rockies"),
  ("Detroit Tigers", "Detroit Tigers"), ("Houston Astros", "Houston Astros"),
  ("Kansas City Royals", "Kansas City Royals"), ("Los Angeles Angels", "Los Angeles Angels"),
  ("Los Angeles Dodgers", "Los Angeles Dodgers"), ("Miami Marlins", "Miami Marlins"),
  ("Milwaukee Brewers", "Milwaukee Brewers"), ("Minnesota Twins", "Minnesota Twins"),
  ("New York Mets", "New York Mets"), ("New York Yankees", "New York Yankees"),
  ("Philadelphia Phillies", "Philadelphia Phillies"),
  ("Pittsburgh Pirates", "Pittsburgh Pirates"), ("San Diego Padres", "San Diego Padres"),
  ("Seattle Mariners", "Seattle Mariners"),
  ("San Francisco Giants", "San Francisco Giants"),
  ("St. Louis Cardinals", "St. Louis Cardinals"), ("Tampa Bay Rays", "Tampa Bay Rays"),
  ("Texas Rangers", "Texas Rangers"), ("Toronto Blue Jays", "Toronto Blue Jays"),
  ("Washington Nationals", "Washington Nationals")]

/-- `NAME_MAPPINGS` (data_cleaning.py:90-125), in source order. -/
def NAME_MAPPINGS : List (String × String) := [
  ("Oakland Athletics", "Athletics"),
  ("Oakland A\'s", "Athletics"),
  ("Oakland", "Athletics"),
  ("Cleveland Indians", "Cleveland Guardians"),
  ("Washington Nationals", "Washington Nationals"),
  ("LA Angels", "Los Angeles Angels"),
  ("LA Dodgers", "Los Angeles Dodgers"),
  ("NY Mets", "New York Mets"),
  ("NY Yankees", "New York Yankees"),
  ("SF Giants", "San Francisco Giants"),
  ("SD Padres", "San Diego Padres"),
  ("TB Rays", "Tampa Bay Rays"),
  ("KC Royals", "Kansas City Royals"),
  ("Los Angeles Angels of Anaheim", "Los Angeles Angels"),
  ("Anaheim Angels", "Los Angeles Angels"),
  ("California Angels", "Los Angeles Angels"),
  ("Florida Marlins", "Miami Marlins"),
  ("Tampa Bay Devil Rays", "Tampa Bay Rays"),
  ("Montreal Expos", "Washington Nationals")]

/-- `ABBREVIATION_MAPPINGS` (data_cleaning.py:132-151), in source order. -/
def ABBREVIATION_MAPPINGS : List (String × String) := [
  ("OAK", "ATH"), ("CWS", "CHW"), ("KC", "KCR"), ("KAN", "KCR"), ("SD", "SDP"),
  ("WAS", "WSN"), ("WSH", "WSN"), ("ANA", "LAA"), ("CAL", "LAA"), ("FLA", "MIA"),
  ("MON", "WSN"), ("TBD", "TBR"), ("CLV", "CLE")]

/-- `BaseballDataCleaner.standardize_team_name` (data_cleaning.py:168-191)
on a present value: strip, return unchanged if already standard, else apply
the historical mapping, else return unchanged. -/
def standardizeNameCore (s : String) : String :=
  let n : String := String.mk (pstrip s.data)
  if STANDARD_TEAM_NAMES.any (fun p => p.1 == n) then n
  else
    match (NAME_MAPPINGS.find? (fun p => p.1 == n)).map (fun p => p.2) with
    | some v => v
    | none => n

/-- `standardize_team_name` including the `pd.isna` guard. -/
def standardize_team_name (name : Option String) : Option String :=
  name.map standardizeNameCore

/-- `BaseballDataCleaner.standardize_cell_value` (data_cleaning.py:218-247)
on a present value: every name mapping applied by plain (unanchored)
`str.replace`, then every abbreviation mapping applied by the
word-boundary-anchored, lookahead-guarded, case-insensitive `re.sub`, in
table order. -/
def standardizeCellCore (value : String) : String :=
  let s1 := NAME_MAPPINGS.foldl
    (fun s p => if containsSub s p.1.data then pyReplace p.1.data p.2.data s else s)
    value.data
  let s2 := ABBREVIATION_MAPPINGS.foldl (fun s p => reSubTokenCI p.1.data p.2.data s) s1
  String.mk s2

/-- `standardize_cell_value` including the `pd.isna` guard. -/
def standardize_cell_value (value : Option String) : Option String :=
  value.map standardizeCellCore

end DataCleaning

namespace Scraper

/-! ## `BaseballScraper.get_all_tables` (baseball_scraper.py:177-269)

The page is abstracted to what the function actually consumes: the visible
DOM tables (id plus `pd.read_html` outcome), and the HTML comment blocks in
document order, each with its `'<table' in content` quick-check bit, whether
its re-parse raises (caught by the bare `except`), and the id-bearing tables
inside it.  Wall-clock time is an oracle `clock : ℕ → ℤ` giving the value of
the `i`-th `time.time()` call; `t0 = clock 0` is `start_time`.  The table
dictionary is insertion-ordered, as a Python dict is. -/

/-- A visible-DOM table: its id attribute and its parse outcome (`none`
models `pd.read_html` raising, swallowed by `except: pass`). -/
structure VisEntry (α : Type) where
  id : String
  parsed : Option α
deriving DecidableEq, Repr

/-- One HTML comment block. -/
structure CommentBlock (α : Type) where
  hasTableTag : Bool
  parseOk : Bool
  items : List (String × Option α)
deriving DecidableEq, Repr

/-- Python dict assignment `tables[k] = v`: update in place, else append. -/
def dictInsert {α : Type} (ts : List (String × α)) (k : String) (v : α) :
    List (String × α) :=
  if ts.any (fun p => p.1 == k) then ts.map (fun p => if p.1 == k then (k, v) else p)
  else ts ++ [(k, v)]

/-- Python dict lookup. -/
def lookupTbl {α : Type} (ts : List (String × α)) (k : String) : Option α :=
  (ts.find? (fun p => p.1 == k)).map (fun p => p.2)

/-- The effect of one visible table on the dictionary (`if table_id:` then
try `read_html`, `except: pass`). -/
def visStep {α : Type} (acc : List (String × α)) (e : VisEntry α) : List (String × α) :=
  if e.id ≠ "" then
    match e.parsed with
    | some df => dictInsert acc e.id df
    | none => acc
  else acc

/-- The effect of one comment block on the dictionary: skip without the
quick `'<table'` check or on a parse failure; otherwise add each id-bearing
table whose id is non-empty and **not already present**. -/
def comStep {α : Type} (acc : List (String × α)) (cb : CommentBlock α) : List (String × α) :=
  if !cb.hasTableTag then acc
  else if !cb.parseOk then acc
  else
    cb.items.foldl (fun a it =>
      match it with
      | (tid, some df) =>
        if tid ≠ "" && !(a.any (fun p => p.1 == tid)) then dictInsert a tid df else a
      | (_, none) => a) acc

/-- Timeout-free accumulation over visible tables (for stating that a
timed-out run returns a prefix's worth of work). -/
def visAccum {α : Type} (l : List (VisEntry α)) (acc : List (String × α)) :
    List (String × α) :=
  l.foldl visStep acc

/-- Timeout-free accumulation over comment blocks, including the
`max_comments = 50` cap logic (`comment_count` starts at `count`). -/
def comAccum {α : Type} : List (CommentBlock α) → List (String × α) → ℕ → List (String × α)
  | [], acc, _ => acc
  | cb :: rest, acc, count =>
    if 50 < count + 1 then acc else comAccum rest (comStep acc cb) (count + 1)

/-- The visible-tables loop: a time check before each table; on timeout the
tables found so far are returned (`timedOut = true`). -/
def visLoop {α : Type} (clock : ℕ → ℤ) (t0 budget : ℤ) :
    List (VisEntry α) → List (String × α) → ℕ → List (String × α) × ℕ × Bool
  | [], acc, clk => (acc, clk, false)
  | e :: rest, acc, clk =>
    if budget < clock clk - t0 then (acc, clk + 1, true)
    else visLoop clock t0 budget rest (visStep acc e) (clk + 1)

/-- The comment-scan loop: a time check before each comment, the hard cap of
50 inspected comments, and first-found-wins insertion.  Besides the
dictionary it returns how many comments were actually inspected (the
iterations that got past the cap check — the ghost reading of the source's
`comment_count`). -/
def comLoop {α : Type} (clock : ℕ → ℤ) (t0 budget : ℤ) :
    List (CommentBlock α) → List (String × α) → ℕ → ℕ → List (String × α) × ℕ
  | [], acc, _, _ => (acc, 0)
  | cb :: rest, acc, clk, count =>
    if budget < clock clk - t0 then (acc, 0)
    else if 50 < count + 1 then (acc, 0)
    else
      let r := comLoop clock t0 budget rest (comStep acc cb) (clk + 1) (count + 1)
      (r.1, r.2 + 1)

/-- What `get_all_tables` returns, with the inspected-comment count kept as
an observable. -/
structure DiscoveryResult (α : Type) where
  tables : List (String × α)
  commentsInspected : ℕ
deriving DecidableEq, Repr

/-- `BaseballScraper.get_all_tables`: get the page source (a failure returns
`{}`), check the budget, scan visible tables (time check per table), then
scan up to 50 comment blocks (time check per comment); every exit path
returns the dictionary accumulated so far — no timeout is ever raised. -/
def get_all_tables {α : Type} (pageOk : Bool) (visible : List (VisEntry α))
    (comments : List (CommentBlock α)) (clock : ℕ → ℤ) (budget : ℤ) :
    DiscoveryResult α :=
  let t0 := clock 0
  if !pageOk then ⟨[], 0⟩
  else if budget < clock 1 - t0 then ⟨[], 0⟩
  else
    match visLoop clock t0 budget visible [] 2 with
    | (tv, _, true) => ⟨tv, 0⟩
    | (tv, clk2, false) =>
      let rc := comLoop clock t0 budget comments tv clk2 0
      ⟨rc.1, rc.2⟩

end Scraper

/-! ## The claims -/

section Claims

open Py SalaryCleaning DataCleaning Scraper

set_option maxRecDepth 8000

/-- **C2.** For the period year 1998, `process_file` ignores the scraped
input entirely and emits exactly the 30-record curated override set, each
payroll equal to the hardcoded constant verbatim (Baltimore Orioles
71860921), reporting success with a count of 30. -/
theorem C2_process_file_1998_hardcoded :
    (∀ input : Except Unit Table,
      process_file 1998 input = ⟨true, 30, some HARDCODED_1998⟩) ∧
    HARDCODED_1998.length = 30 ∧
    (HARDCODED_1998.find? (fun r => r.tm == "Baltimore Orioles")).map
      (fun r => r.payroll) = some 71860921 := by
  refine ⟨fun input => rfl, by decide, by decide⟩

/-- **C8.** Entity name normalization has a fixed point on every one of the
30 canonical team identities, in both the salary cleaner and the statistics
cleaner. -/
theorem C8_canonical_fixed_point :
    ∀ c ∈ SalaryCleaning.VALID_TEAM_NAMES,
      SalaryCleaning.standardize_team_name (some c) = some c ∧
      DataCleaning.standardize_team_name (some c) = some c := by decide

/-- Witness for C8 at the concrete canonical identity `"Athletics"`. -/
theorem C8_canonical_fixed_point_witness :
    "Athletics" ∈ SalaryCleaning.VALID_TEAM_NAMES ∧
    SalaryCleaning.standardize_team_name (some "Athletics") = some "Athletics" ∧
    DataCleaning.standardize_team_name (some "Athletics") = some "Athletics" :=
  ⟨by decide, (C8_canonical_fixed_point "Athletics" (by decide)).1,
    (C8_canonical_fixed_point "Athletics" (by decide)).2⟩

/-- **C10.** In the salary cleaner's variant mapping, `"N.Y. Mets"`
normalizes to `"New York Yankees"` while `"NY Mets"` normalizes to
`"New York Mets"`, so two variants of the same franchise do not converge. -/
theorem C10_mets_variant_divergence :
    SalaryCleaning.standardize_team_name (some "N.Y. Mets") = some "New York Yankees" ∧
    SalaryCleaning.standardize_team_name (some "NY Mets") = some "New York Mets" ∧
    ("New York Yankees" : String) ≠ "New York Mets" := by
  refine ⟨by decide, by decide, by decide⟩

end Claims

namespace SalaryCleaning

/-- Build a column of present cells. -/
def mkCol (h : String) (vs : List String) : Column := ⟨h, vs.map some⟩

/-- Fixture for C1: a 3-row table satisfying everything the claim asks of a
table (team column, average column around 3M, total column in 80M–150M). -/
def c1Table3 : Table := [
  mkCol "Team" ["Boston Red Sox", "Chicago Cubs", "Detroit Tigers"],
  mkCol "AvgSalary" ["$3,000,000", "$2,500,000", "$2,000,000"],
  mkCol "TotalPayroll" ["$95,000,000", "$85,000,000", "$80,000,000"]]

/-- Fixture for C1's amended claim instance: a 10-row team column... -/
def c1TeamCol : Column := mkCol "Team" ["Boston Red Sox", "Chicago Cubs",
  "Detroit Tigers", "Seattle Mariners", "Houston Astros", "Atlanta Braves",
  "Cincinnati Reds", "Milwaukee Brewers", "Toronto Blue Jays", "Minnesota Twins"]

/-- ... an average-salary column around 3M ... -/
def c1AvgCol : Column := mkCol "AvgSalary" ["$3,000,000", "$2,500,000",
  "$2,000,000", "$1,500,000", "$1,000,000", "$900,000", "$800,000", "$700,000",
  "$600,000", "$500,000"]

/-- ... and a total-payroll column with values in 80M–150M. -/
def c1PayCol : Column := mkCol "TotalPayroll" ["$95,000,000", "$85,000,000",
  "$80,000,000", "$120,000,000", "$110,000,000", "$100,000,000", "$90,000,000",
  "$88,000,000", "$87,000,000", "$86,000,000"]

/-- Fixture for C3: two rows (`"NY Yankees"`, `"N.Y. Yankees"`) standardize
to the same canonical team. -/
def c3Table : Table := [
  mkCol "Tm" ["NY Yankees", "N.Y. Yankees", "Boston Red Sox", "Chicago Cubs",
    "Detroit Tigers", "Seattle Mariners", "Houston Astros", "Atlanta Braves",
    "Cincinnati Reds", "Milwaukee Brewers", "Toronto Blue Jays", "Minnesota Twins"],
  mkCol "Payroll" ["$95,000,000", "$60,000,000", "$85,000,000", "$80,000,000",
    "$75,000,000", "$70,000,000", "$65,000,000", "$55,000,000",
    "$50,000,000", "$45,000,000", "$40,000,000", "$35,000,000"]]

/-- Fixture for C4: one row carries an identity token (`"Zorblax United"`)
that matches nothing, with a perfectly good payroll. -/
def c4Table : Table := [
  mkCol "Tm" ["Zorblax United", "Boston Red Sox", "Chicago Cubs",
    "Detroit Tigers", "Seattle Mariners", "Houston Astros", "Atlanta Braves",
    "Cincinnati Reds", "Milwaukee Brewers", "Toronto Blue Jays", "Minnesota Twins"],
  mkCol "Payroll" ["$95,000,000", "$85,000,000", "$80,000,000",
    "$75,000,000", "$70,000,000", "$65,000,000", "$55,000,000",
    "$50,000,000", "$45,000,000", "$40,000,000", "$35,000,000"]]

/-- What `clean_dataframe` produces on `c4Table`. -/
def c4Result : CleanResult :=
  ⟨[⟨"Boston Red Sox", 85000000⟩, ⟨"Chicago Cubs", 80000000⟩,
    ⟨"Detroit Tigers", 75000000⟩, ⟨"Seattle Mariners", 70000000⟩,
    ⟨"Houston Astros", 65000000⟩, ⟨"Atlanta Braves", 55000000⟩,
    ⟨"Cincinnati Reds", 50000000⟩, ⟨"Milwaukee Brewers", 45000000⟩,
    ⟨"Toronto Blue Jays", 40000000⟩, ⟨"Minnesota Twins", 35000000⟩],
   ["Zorblax United"]⟩

end SalaryCleaning

section Claims2

open Py SalaryCleaning DataCleaning Scraper

set_option maxRecDepth 10000

/-- **C5, counterexample.** The claim says an occurrence of a historical
token is replaced *only when* it is followed by a digit, punctuation or the
end of the string.  In `"Oaklandia"` the token `"Oakland"` is followed by
the letter `'i'`, yet the name layer (a plain, unanchored `str.replace`)
rewrites it. -/
theorem C5_boundary_counterexample :
    DataCleaning.standardize_cell_value (some "Oaklandia") = some "Athleticsia" ∧
    ("Athleticsia" : String) ≠ "Oaklandia" := by
  refine ⟨by decide, by decide⟩

/-- **C5, amended.** `"OAK4.0"` becomes `"ATH4.0"` (case-insensitively:
`"oak4.0"` too) and `"Philadelphia Phillies18.5"` is untouched; but only the
*abbreviation* layer is word-boundary anchored and lookahead-guarded — and
its lookahead accepts just digits, `'.'` and `'-'`, not all punctuation
(`"OAK,"` is untouched) — while *name* tokens are replaced at any plain
occurrence (`"Oaklandia"` → `"Athleticsia"`). -/
theorem C5_cell_value_amended :
    DataCleaning.standardize_cell_value (some "OAK4.0") = some "ATH4.0" ∧
    DataCleaning.standardize_cell_value (some "oak4.0") = some "ATH4.0" ∧
    DataCleaning.standardize_cell_value (some "Philadelphia Phillies18.5") =
      some "Philadelphia Phillies18.5" ∧
    DataCleaning.standardize_cell_value (some "xOAK4.0") = some "xOAK4.0" ∧
    DataCleaning.standardize_cell_value (some "OAK,") = some "OAK," ∧
    DataCleaning.standardize_cell_value (some "Oaklandia") = some "Athleticsia" := by
  refine ⟨by decide, by decide, by decide, by decide, by decide, by decide⟩

/-- **C6, counterexample.** `clean_currency` is *not* the identity on every
plain integer string: CPython's `int(float(s))` rounds through binary64, so
the 2^53 + 1 = 9007199254740993 string parses to 9007199254740992. -/
theorem C6_large_integer_counterexample :
    clean_currency "9007199254740993" = .ok (some 9007199254740992) ∧
    (9007199254740992 : ℤ) ≠ 9007199254740993 := by
  refine ⟨by decide, by decide⟩

/-- **C7, counterexample.** `clean_currency` is not total: the token
`"inf"` reaches `int(float("inf"))`, which raises `OverflowError` — and the
source catches only `ValueError`. -/
theorem C7_inf_raises_counterexample :
    clean_currency "inf" = .error .overflowError := by decide

/-- **C1, counterexample.** A 3-row table meeting every condition in the
claim (a team column, an average column topping out at 3,000,000, a total
column inside 80M–150M): `identify_payroll_column` selects nothing at all —
both its threshold pass and its fallback demand at least 10 parsed values —
rather than the total-payroll column. -/
theorem C1_small_table_counterexample :
    parseCells (getColCells c1Table3 "AvgSalary") = .ok [3000000, 2500000, 2000000] ∧
    parseCells (getColCells c1Table3 "TotalPayroll") =
      .ok [95000000, 85000000, 80000000] ∧
    identify_payroll_column c1Table3 "Team" = none := by
  refine ⟨by decide, by decide, by decide⟩

/-- **C3, counterexample.** `clean_dataframe` performs no per-team
deduplication: two input rows (`"NY Yankees"`, `"N.Y. Yankees"`) both
standardize to `"New York Yankees"` and *both* records survive. -/
theorem C3_duplicate_records_counterexample :
    (match clean_dataframe c3Table with
     | .ok (some res) => res.records.countP (fun r => r.tm == "New York Yankees")
     | _ => 0) = 2 := by decide

/-- **C4, counterexample.** The row carrying the unresolved entity
`"Zorblax United"` (present in the input with a positive payroll) is
*dropped* from the cleaned record set — the warning is emitted, but the
claim's "the row ... is never dropped" is false. -/
theorem C4_unmatched_row_dropped_counterexample :
    some "Zorblax United" ∈ getColCells c4Table "Tm" ∧
    clean_dataframe c4Table = .ok (some c4Result) ∧
    "Zorblax United" ∈ c4Result.warnings ∧
    c4Result.records.all (fun r => r.tm != "Zorblax United") = true := by
  refine ⟨by decide, by decide, by decide, by decide⟩

end Claims2

namespace SalaryCleaning

open Py

/-- `int()` fails with the uncaught `OverflowError` only on an infinite
float. -/
theorem pyIntOfFloat_error_overflow {f : PyFloat}
    (h : pyIntOfFloat f = .error .overflowError) : ∃ b, f = PyFloat.inf b := by
  cases f <;> simp_all [pyIntOfFloat]

set_option maxRecDepth 10000 in
/-- The only way `clean_currency` can raise: the uncaught `OverflowError`,
and only when the cleaned residue (or the `M`-branch product) is an
infinite float. -/
theorem clean_currency_error_char (s : String) (e : PyExc)
    (h : clean_currency s = .error e) :
    e = PyExc.overflowError ∧
    ((∃ b, pyFloatOfChars (removeAll ','
        (removeAll ' ' (removeAll '$' (pstrip s.data)))) = some (.inf b)) ∨
     (∃ f, pyFloatOfChars (removeAll ','
        ((removeAll ' ' (removeAll '$' (pstrip s.data))).dropLast)) = some f ∧
        ∃ b, floatMulNat f 1000000 = .inf b)) := by
  simp only [clean_currency] at h
  split at h
  · simp at h
  · split at h
    · rename_i r hmres
      split at hmres
      · split at hmres
        · rename_i f hf
          split at hmres
          · simp at hmres; subst hmres; simp at h
          · simp at hmres
          · rename_i hn
            simp at hmres; subst hmres
            cases h
            exact ⟨rfl, Or.inr ⟨f, hf, pyIntOfFloat_error_overflow hn⟩⟩
        · simp at hmres
      · simp at hmres
    · rename_i hmres
      split at h
      · simp at h
      · rename_i f hf
        split at h
        · simp at h
        · simp at h
        · rename_i hn
          cases h
          obtain ⟨b, hb⟩ := pyIntOfFloat_error_overflow hn
          exact ⟨rfl, Or.inl ⟨b, hb ▸ hf⟩⟩

end SalaryCleaning

section Claims3

open Py SalaryCleaning DataCleaning Scraper

set_option maxRecDepth 10000

/-- **C7, amended.** `clean_currency` maps the sentinel tokens (`"N/A"`,
`"-"`, the empty string, `"nan"`, `"None"`) and null-like input to the
"no value" result `none` — not zero — and non-numeric residue also yields
`none` rather than an error; but it is *not* total: it can raise
`OverflowError` (never `ValueError`), and does so exactly when the cleaned
residue, or the `M`-suffix product, is an infinite float (e.g. on `"inf"`). -/
theorem C7_sentinel_and_error_behaviour :
    (∀ (s : String) (e : PyExc), clean_currency s = .error e →
      e = PyExc.overflowError ∧
      ((∃ b, pyFloatOfChars (removeAll ','
          (removeAll ' ' (removeAll '$' (pstrip s.data)))) = some (.inf b)) ∨
       (∃ f, pyFloatOfChars (removeAll ','
          ((removeAll ' ' (removeAll '$' (pstrip s.data))).dropLast)) = some f ∧
          ∃ b, floatMulNat f 1000000 = .inf b))) ∧
    cleanCurrencyCell none = .ok none ∧
    clean_currency "N/A" = .ok none ∧
    clean_currency "-" = .ok none ∧
    clean_currency "" = .ok none ∧
    clean_currency "nan" = .ok none ∧
    clean_currency "None" = .ok none ∧
    clean_currency "abc" = .ok none ∧
    clean_currency "12x34" = .ok none := by
  exact ⟨clean_currency_error_char, by decide, by decide, by decide, by decide,
    by decide, by decide, by decide, by decide⟩

/-- Witness for C7 at the concrete raising input `"inf"`. -/
theorem C7_sentinel_and_error_behaviour_witness :
    PyExc.overflowError = PyExc.overflowError ∧
    ((∃ b, pyFloatOfChars (removeAll ','
        (removeAll ' ' (removeAll '$' (pstrip "inf".data)))) = some (.inf b)) ∨
     (∃ f, pyFloatOfChars (removeAll ','
        ((removeAll ' ' (removeAll '$' (pstrip "inf".data))).dropLast)) = some f ∧
        ∃ b, floatMulNat f 1000000 = .inf b)) :=
  C7_sentinel_and_error_behaviour.1 "inf" PyExc.overflowError (by decide)

end Claims3

namespace SalaryCleaning

open Py

/-- What `clean_dataframe` produces on `c3Table`: both Yankees rows
survive. -/
def c3Result : CleanResult :=
  ⟨[⟨"New York Yankees", 95000000⟩, ⟨"Boston Red Sox", 85000000⟩,
    ⟨"Chicago Cubs", 80000000⟩, ⟨"Detroit Tigers", 75000000⟩,
    ⟨"Seattle Mariners", 70000000⟩, ⟨"Houston Astros", 65000000⟩,
    ⟨"New York Yankees", 60000000⟩, ⟨"Atlanta Braves", 55000000⟩,
    ⟨"Cincinnati Reds", 50000000⟩, ⟨"Milwaukee Brewers", 45000000⟩,
    ⟨"Toronto Blue Jays", 40000000⟩, ⟨"Minnesota Twins", 35000000⟩], []⟩

/-- The team name after `strip` / rank-prefix removal / `strip`, as
`standardize_team_name` computes it before matching. -/
def processedName (s : String) : String :=
  String.mk (pstrip (stripRankNum (pstrip s.data)))

theorem mem_insertDesc {x a : Record} {l : List Record} (h : a ∈ insertDesc x l) :
    a = x ∨ a ∈ l := by
  induction l with
  | nil => simpa [insertDesc] using h
  | cons y t ih =>
    simp only [insertDesc] at h
    split at h
    · rcases List.mem_cons.1 h with rfl | h2
      · exact Or.inl rfl
      · exact Or.inr h2
    · rcases List.mem_cons.1 h with rfl | h2
      · exact Or.inr (List.mem_cons_self _ _)
      · rcases ih h2 with rfl | h3
        · exact Or.inl rfl
        · exact Or.inr (List.mem_cons_of_mem _ h3)

theorem pairwise_insertDesc {x : Record} {l : List Record}
    (h : l.Pairwise (fun a b => b.payroll ≤ a.payroll)) :
    (insertDesc x l).Pairwise (fun a b => b.payroll ≤ a.payroll) := by
  induction l with
  | nil => simp [insertDesc]
  | cons y t ih =>
    rcases List.pairwise_cons.1 h with ⟨hy, ht⟩
    simp only [insertDesc]
    split
    · rename_i hlt
      refine List.pairwise_cons.2 ⟨?_, h⟩
      intro z hz
      rcases List.mem_cons.1 hz with rfl | hz2
      · exact le_of_lt hlt
      · exact le_trans (hy z hz2) (le_of_lt hlt)
    · rename_i hge
      refine List.pairwise_cons.2 ⟨?_, ih ht⟩
      intro z hz
      rcases mem_insertDesc hz with rfl | hz2
      · omega
      · exact hy z hz2

theorem sortDesc_pairwise (l : List Record) :
    (sortDesc l).Pairwise (fun a b => b.payroll ≤ a.payroll) := by
  suffices h : ∀ acc, acc.Pairwise (fun a b => b.payroll ≤ a.payroll) →
      (l.foldl (fun acc x => insertDesc x acc) acc).Pairwise
        (fun a b => b.payroll ≤ a.payroll) from h [] (by simp)
  induction l with
  | nil => intro acc h; exact h
  | cons x t ih => intro acc h; exact ih _ (pairwise_insertDesc h)

theorem mem_foldl_insertDesc {a : Record} :
    ∀ (l acc : List Record), a ∈ l.foldl (fun acc x => insertDesc x acc) acc →
      a ∈ l ∨ a ∈ acc := by
  intro l
  induction l with
  | nil => intro acc h; exact Or.inr h
  | cons x t ih =>
    intro acc h
    rcases ih (insertDesc x acc) h with h1 | h1
    · exact Or.inl (List.mem_cons_of_mem _ h1)
    · rcases mem_insertDesc h1 with rfl | h3
      · exact Or.inl (List.mem_cons_self _ _)
      · exact Or.inr h3

theorem mem_sortDesc {a : Record} {l : List Record} (h : a ∈ sortDesc l) : a ∈ l := by
  rcases mem_foldl_insertDesc l [] h with h1 | h1
  · exact h1
  · simp at h1

/-- Any record a row of `clean_dataframe` emits carries a canonical team
name and a positive payroll; any warning it emits is a non-canonical name. -/
theorem rowStep_inv {traw praw : Option String} {rec? : Option Record} {w? : Option String}
    (h : rowStep traw praw = .ok (rec?, w?)) :
    (∀ rec, rec? = some rec → rec.tm ∈ VALID_TEAM_NAMES ∧ 0 < rec.payroll) ∧
    (∀ w, w? = some w → w ∉ VALID_TEAM_NAMES) := by
  simp only [rowStep] at h
  split at h
  · simp at h
  · rename_i pay hpay
    injection h with h
    split at h
    · cases h; simp
    · rename_i tn
      split at h
      · cases h; simp
      · rename_i v
        split at h
        · cases h; simp
        · rename_i hcond
          split at h
          · rename_i hcont
            cases h
            constructor
            · intro rec hrec
              cases hrec
              refine ⟨by simpa using hcont, ?_⟩
              simp at hcond ⊢; omega
            · simp
          · rename_i hcont
            split at h
            · rename_i v' hfind
              cases h
              constructor
              · intro rec hrec
                cases hrec
                refine ⟨List.mem_of_find?_eq_some hfind, ?_⟩
                simp at hcond ⊢; omega
              · simp
            · rename_i hfind
              split at h
              · cases h
                refine ⟨by simp, ?_⟩
                intro w hw
                cases hw
                simpa using hcont
              · cases h; simp

theorem rowLoop_inv {t : Table} {teamCol payrollCol : String} :
    ∀ {idxs : List ℕ} {rs : List Record} {ws : List String},
      rowLoop t teamCol payrollCol idxs = .ok (rs, ws) →
      (∀ r ∈ rs, r.tm ∈ VALID_TEAM_NAMES ∧ 0 < r.payroll) ∧
      (∀ w ∈ ws, w ∉ VALID_TEAM_NAMES) := by
  intro idxs
  induction idxs with
  | nil =>
    intro rs ws h
    simp only [rowLoop] at h
    injection h with h
    cases h
    simp
  | cons i rest ih =>
    intro rs ws h
    simp only [rowLoop] at h
    split at h
    · simp at h
    · rename_i rec? warn? hstep
      split at h
      · simp at h
      · rename_i rs2 ws2 hloop
        injection h with h
        cases h
        obtain ⟨hrec, hwarn⟩ := rowStep_inv hstep
        obtain ⟨hrs, hws⟩ := ih hloop
        constructor
        · intro r hr
          rcases List.mem_append.1 hr with h1 | h1
          · cases rec? with
            | none => simp at h1
            | some rec =>
              simp at h1
              exact h1 ▸ hrec rec rfl
          · exact hrs r h1
        · intro w hw
          rcases List.mem_append.1 hw with h1 | h1
          · cases warn? with
            | none => simp at h1
            | some w0 =>
              simp at h1
              exact h1 ▸ hwarn w0 rfl
          · exact hws w h1

/-- The record-set invariant of `clean_dataframe`: canonical team names,
positive payrolls, payroll-descending order, and non-canonical warnings. -/
theorem clean_dataframe_inv (t : Table) (res : CleanResult)
    (h : clean_dataframe t = .ok (some res)) :
    (∀ r ∈ res.records, r.tm ∈ VALID_TEAM_NAMES ∧ 0 < r.payroll) ∧
    (∀ w ∈ res.warnings, w ∉ VALID_TEAM_NAMES) ∧
    res.records.Pairwise (fun a b => b.payroll ≤ a.payroll) := by
  simp only [clean_dataframe] at h
  split at h
  · simp at h
  · split at h
    · simp at h
    · rename_i pc hpc
      split at h
      · simp at h
      · rename_i rs ws hloop
        split at h
        · simp at h
        · injection h with h
          injection h with h
          cases h
          obtain ⟨hrs, hws⟩ := rowLoop_inv hloop
          refine ⟨?_, ?_, sortDesc_pairwise rs⟩
          · intro r hr
            exact hrs r (mem_sortDesc hr)
          · intro w hw
            exact hws w hw

end SalaryCleaning

section Claims4

open Py SalaryCleaning DataCleaning Scraper

set_option maxRecDepth 10000

/-- **C3, amended.** `clean_dataframe` performs **no** per-(team, year)
deduplication — a team standardized from several rows yields several records
(see the counterexample) — but the record set it emits is still disciplined
and deterministic: every record carries a canonical team name and a strictly
positive payroll, and the records are sorted by payroll descending. -/
theorem C3_record_set_invariant :
    ∀ (t : Table) (res : CleanResult), clean_dataframe t = .ok (some res) →
      (∀ r ∈ res.records, r.tm ∈ VALID_TEAM_NAMES ∧ 0 < r.payroll) ∧
      res.records.Pairwise (fun a b => b.payroll ≤ a.payroll) := by
  intro t res h
  obtain ⟨h1, _, h3⟩ := clean_dataframe_inv t res h
  exact ⟨h1, h3⟩

/-- Witness for C3's amended theorem on the duplicate-team fixture. -/
theorem C3_record_set_invariant_witness :
    clean_dataframe c3Table = .ok (some c3Result) ∧
    ((∀ r ∈ c3Result.records, r.tm ∈ VALID_TEAM_NAMES ∧ 0 < r.payroll) ∧
     c3Result.records.Pairwise (fun a b => b.payroll ≤ a.payroll)) :=
  ⟨by decide, C3_record_set_invariant c3Table c3Result (by decide)⟩

/-- **C4, amended.** `standardize_team_name` never raises and never maps a
present value to null; when an identity token matches nothing — not the
mapping table, not the canonical list, not the case-insensitive partial
pass — it is returned unchanged (up to the whitespace/rank-prefix
stripping applied to every input).  But `clean_dataframe` then *drops* the
row carrying it: the unmatched entity is surfaced as a warning (when longer
than 3 characters) and no record with that identity reaches the cleaned
record set. -/
theorem C4_unmatched_entity_behaviour :
    (∀ s : String, SalaryCleaning.standardize_team_name (some s) ≠ none) ∧
    (∀ name : String,
      assocFind TEAM_NAME_MAPPINGS (processedName name) = none →
      VALID_TEAM_NAMES.contains (processedName name) = false →
      TEAM_NAME_MAPPINGS.find? (fun p =>
          containsSub (lower (processedName name).data) (lower p.1.data) ||
          containsSub (lower p.1.data) (lower (processedName name).data)) = none →
      standardizeCore name = processedName name) ∧
    (∀ (t : Table) (res : CleanResult), clean_dataframe t = .ok (some res) →
      ∀ w ∈ res.warnings, w ∉ VALID_TEAM_NAMES ∧ ∀ r ∈ res.records, r.tm ≠ w) := by
  refine ⟨?_, ?_, ?_⟩
  · intro s
    simp [SalaryCleaning.standardize_team_name]
  · intro name h1 h2 h3
    simp only [processedName] at h1 h2 h3
    simp [standardizeCore, h1, h2, h3, processedName]
  · intro t res h w hw
    obtain ⟨hrec, hwarn, _⟩ := clean_dataframe_inv t res h
    refine ⟨hwarn w hw, ?_⟩
    intro r hr heq
    exact hwarn w hw (heq ▸ (hrec r hr).1)

/-- Witness for C4's amended theorem: the unmatched `"Zorblaxia"` passes
through `standardize_team_name` unchanged, and on the fixture table the
warned entity `"Zorblax United"` is absent from the record set. -/
theorem C4_unmatched_entity_behaviour_witness :
    standardizeCore "Zorblaxia" = processedName "Zorblaxia" ∧
    ("Zorblax United" ∉ VALID_TEAM_NAMES ∧
     ∀ r ∈ c4Result.records, r.tm ≠ "Zorblax United") :=
  ⟨C4_unmatched_entity_behaviour.2.1 "Zorblaxia" (by decide) (by decide) (by decide),
   C4_unmatched_entity_behaviour.2.2 c4Table c4Result (by decide)
     "Zorblax United" (by decide)⟩

end Claims4

namespace SalaryCleaning

open Py

theorem foldl_max_mem : ∀ (t : List ℤ) (v : ℤ), t.foldl max v ∈ v :: t := by
  intro t
  induction t with
  | nil => intro v; simp
  | cons x t ih =>
    intro v
    have h := ih (max v x)
    rcases List.mem_cons.1 h with h1 | h1
    · rcases max_choice v x with h2 | h2
      · simp only [List.foldl_cons]
        rw [h1, h2]
        exact List.mem_cons_self _ _
      · simp only [List.foldl_cons]
        rw [h1, h2]
        exact List.mem_cons_of_mem _ (List.mem_cons_self _ _)
    · exact List.mem_cons_of_mem _ (List.mem_cons_of_mem _ h1)

/-- `Series.max` of a non-empty parsed column is one of its values. -/
theorem maxList_mem {l : List ℤ} (h : l ≠ []) : maxList l ∈ l := by
  cases l with
  | nil => exact absurd rfl h
  | cons v t => exact foldl_max_mem t v

theorem length_insertAsc (x : ℤ) : ∀ (l : List ℤ), (insertAsc x l).length = l.length + 1 := by
  intro l
  induction l with
  | nil => simp [insertAsc]
  | cons y t ih =>
    simp only [insertAsc]
    split <;> simp [ih]

theorem length_sortAsc (l : List ℤ) : (sortAsc l).length = l.length := by
  induction l with
  | nil => simp [sortAsc]
  | cons x t ih =>
    simp only [sortAsc, List.foldr_cons] at ih ⊢
    rw [length_insertAsc, ih]
    simp

theorem mem_insertAsc {x a : ℤ} : ∀ {l : List ℤ}, a ∈ insertAsc x l → a = x ∨ a ∈ l := by
  intro l
  induction l with
  | nil => intro h; simpa [insertAsc] using h
  | cons y t ih =>
    intro h
    simp only [insertAsc] at h
    split at h
    · rcases List.mem_cons.1 h with rfl | h2
      · exact Or.inl rfl
      · exact Or.inr h2
    · rcases List.mem_cons.1 h with rfl | h2
      · exact Or.inr (List.mem_cons_self _ _)
      · rcases ih h2 with rfl | h3
        · exact Or.inl rfl
        · exact Or.inr (List.mem_cons_of_mem _ h3)

theorem mem_sortAsc {a : ℤ} : ∀ {l : List ℤ}, a ∈ sortAsc l → a ∈ l := by
  intro l
  induction l with
  | nil => intro h; simpa [sortAsc] using h
  | cons x t ih =>
    intro h
    simp only [sortAsc, List.foldr_cons] at h
    rcases mem_insertAsc h with rfl | h2
    · exact List.mem_cons_self _ _
    · exact List.mem_cons_of_mem _ (ih h2)

theorem getD_mem_of_lt {l : List ℤ} {i : ℕ} (h : i < l.length) : l.getD i 0 ∈ l := by
  rw [List.getD_eq_getElem l 0 h]
  exact List.getElem_mem h

/-- Twice any lower bound of a non-empty column bounds its doubled
median from below. -/
theorem median2_lower {l : List ℤ} {lo : ℤ} (h : ∀ v ∈ l, lo ≤ v) (hne : l ≠ []) :
    2 * lo ≤ median2 l := by
  have hlen : (sortAsc l).length = l.length := length_sortAsc l
  have hpos : 0 < l.length := List.length_pos.2 hne
  have hbound : ∀ i, i < (sortAsc l).length → lo ≤ (sortAsc l).getD i 0 := by
    intro i hi
    exact h _ (mem_sortAsc (getD_mem_of_lt hi))
  simp only [median2]
  rw [hlen]
  split
  · have h1 := hbound (l.length / 2) (by rw [hlen]; omega)
    omega
  · have h1 := hbound (l.length / 2) (by rw [hlen]; omega)
    have h2 := hbound (l.length / 2 - 1) (by rw [hlen]; omega)
    omega

/-- Necessity direction of the threshold pass: a candidate comes from a
non-team column without an avoid keyword, with at least 10 parsed values,
maximum over 10,000,000 and (doubled) median over 2 × 5,000,000. -/
theorem primaryCands_necessity (t : Table) (tc : String) (c : Cand)
    (h : c ∈ primaryCands t tc) :
    ∃ col ∈ t, c.col = col.header ∧ (col.header == tc) = false ∧
      headerHasAny col.header avoidKws = false ∧
      ∃ vals, parseCells col.cells = .ok vals ∧ 10 ≤ vals.length ∧
        c.maxVal = maxList vals ∧ 10000000 < maxList vals ∧
        10000000 < median2 vals := by
  obtain ⟨col, hcol, hg⟩ := List.mem_filterMap.1 h
  refine ⟨col, hcol, ?_⟩
  simp only [primaryCandOf] at hg
  split at hg
  · simp at hg
  · rename_i hteam
    split at hg
    · simp at hg
    · rename_i havoid
      split at hg
      · simp at hg
      · rename_i vals hvals
        split at hg
        · simp at hg
        · rename_i hlen
          split at hg
          · rename_i hthr
            injection hg with hg
            subst hg
            simp only [Bool.not_eq_true] at hteam havoid
            exact ⟨rfl, hteam, havoid, vals, hvals, by omega, rfl, hthr.1, hthr.2⟩
          · simp at hg

set_option maxRecDepth 4000 in
/-- Scenario direction: on any permutation of a team column, an
average-salary column (parsed values ≤ 3,000,000) and a total-payroll
column (parsed values in 80M–150M, a clean header, ≥ 10 parsed values),
`identify_payroll_column` picks the total-payroll column. -/
theorem payroll_selection_scenario
    (teamC avgC payC : Column) (cols : Table) (pvals : List ℤ)
    (hperm : cols.Perm [teamC, avgC, payC])
    (hpayTeam : payC.header ≠ teamC.header)
    (hpayAvoid : headerHasAny payC.header avoidKws = false)
    (hpvals : parseCells payC.cells = .ok pvals)
    (hplen : 10 ≤ pvals.length)
    (hprange : ∀ v ∈ pvals, 80000000 ≤ v ∧ v ≤ 150000000)
    (havg : ∀ avals, parseCells avgC.cells = .ok avals → ∀ v ∈ avals, v ≤ 3000000) :
    identify_payroll_column cols teamC.header = some payC.header := by
  have hne : pvals ≠ [] := by
    intro h; rw [h] at hplen; simp at hplen
  have hmx : 80000000 ≤ maxList pvals := (hprange _ (maxList_mem hne)).1
  have hmed : (160000000 : ℤ) ≤ median2 pvals :=
    median2_lower (fun v hv => (hprange v hv).1) hne
  have hfteam : primaryCandOf teamC.header teamC = none := by
    simp [primaryCandOf]
  have hfavg : primaryCandOf teamC.header avgC = none := by
    simp only [primaryCandOf]
    by_cases h1 : (avgC.header == teamC.header) = true
    · rw [if_pos h1]
    · rw [if_neg h1]
      by_cases h2 : headerHasAny avgC.header avoidKws = true
      · rw [if_pos h2]
      · rw [if_neg h2]
        cases hpa : parseCells avgC.cells with
        | error e => rfl
        | ok avals =>
          dsimp only
          by_cases h3 : avals.length < 10
          · rw [if_pos h3]
          · rw [if_neg h3]
            rw [if_neg ?_]
            intro hcontra
            have hanemp : avals ≠ [] := by
              intro h; rw [h] at h3; simp at h3
            have := havg avals hpa (maxList avals) (maxList_mem hanemp)
            omega
  have hfpay : primaryCandOf teamC.header payC =
      some ⟨payC.header, maxList pvals,
        if headerHasAny payC.header payrollKws then 2 else 1⟩ := by
    simp only [primaryCandOf]
    rw [if_neg (by simp [hpayTeam] : ¬(payC.header == teamC.header) = true)]
    rw [if_neg (by simp [hpayAvoid] : ¬headerHasAny payC.header avoidKws = true)]
    rw [hpvals]
    dsimp only
    rw [if_neg (by omega : ¬pvals.length < 10)]
    rw [if_pos ⟨by omega, by omega⟩]
  have hpc : primaryCands cols teamC.header =
      [⟨payC.header, maxList pvals,
        if headerHasAny payC.header payrollKws then 2 else 1⟩] := by
    have hstep : List.Perm (primaryCands cols teamC.header)
        (primaryCands [teamC, avgC, payC] teamC.header) := by
      simp only [primaryCands]
      exact List.Perm.filterMap _ hperm
    have hval : primaryCands [teamC, avgC, payC] teamC.header =
        [⟨payC.header, maxList pvals,
          if headerHasAny payC.header payrollKws then 2 else 1⟩] := by
      simp only [primaryCands, List.filterMap_cons, List.filterMap_nil,
        hfteam, hfavg, hfpay]
    exact List.perm_singleton.1 (hval ▸ hstep)
  simp only [identify_payroll_column, hpc]
  simp [pickBest]

end SalaryCleaning

section Claims5

open Py SalaryCleaning DataCleaning Scraper

set_option maxRecDepth 10000

/-- **C1, amended.** On any permutation of {team column, average-salary
column (parsed values ≤ 3,000,000), total-payroll column (parsed values in
80M–150M, header free of avoid keywords, **at least 10 parseable values**)},
`identify_payroll_column` selects the total-payroll column and never the
average-salary column; and in general a column qualifies as a threshold-pass
payroll candidate only when it is not the team column, its header holds no
average/median/per/minimum keyword, it has at least 10 currency-parsed
values, its maximum exceeds 10,000,000 and its median exceeds 5,000,000.
(Without the 10-value floor the original claim fails: see the
counterexample.) -/
theorem C1_payroll_column_selection :
    (∀ (teamC avgC payC : Column) (cols : Table) (pvals : List ℤ),
      cols.Perm [teamC, avgC, payC] →
      payC.header ≠ teamC.header →
      headerHasAny payC.header avoidKws = false →
      parseCells payC.cells = .ok pvals →
      10 ≤ pvals.length →
      (∀ v ∈ pvals, 80000000 ≤ v ∧ v ≤ 150000000) →
      (∀ avals, parseCells avgC.cells = .ok avals → ∀ v ∈ avals, v ≤ 3000000) →
      identify_payroll_column cols teamC.header = some payC.header) ∧
    (∀ (t : Table) (tc : String) (c : Cand), c ∈ primaryCands t tc →
      ∃ col ∈ t, c.col = col.header ∧ (col.header == tc) = false ∧
        headerHasAny col.header avoidKws = false ∧
        ∃ vals, parseCells col.cells = .ok vals ∧ 10 ≤ vals.length ∧
          c.maxVal = maxList vals ∧ 10000000 < maxList vals ∧
          10000000 < median2 vals) :=
  ⟨payroll_selection_scenario, primaryCands_necessity⟩

/-- Witness for C1 on the 10-row fixture, with the columns deliberately
out of order (payroll first). -/
theorem C1_payroll_column_selection_witness :
    identify_payroll_column [c1PayCol, c1TeamCol, c1AvgCol] c1TeamCol.header =
      some c1PayCol.header ∧
    (∃ col ∈ [c1PayCol, c1TeamCol, c1AvgCol],
      (Cand.mk "TotalPayroll" 120000000 2).col = col.header ∧
      (col.header == "Team") = false ∧
      headerHasAny col.header avoidKws = false ∧
      ∃ vals, parseCells col.cells = .ok vals ∧ 10 ≤ vals.length ∧
        (Cand.mk "TotalPayroll" 120000000 2).maxVal = maxList vals ∧
        10000000 < maxList vals ∧ 10000000 < median2 vals) :=
  ⟨C1_payroll_column_selection.1 c1TeamCol c1AvgCol c1PayCol
      [c1PayCol, c1TeamCol, c1AvgCol]
      [95000000, 85000000, 80000000, 120000000, 110000000, 100000000,
        90000000, 88000000, 87000000, 86000000]
      (by decide) (by decide) (by decide) (by decide) (by decide) (by decide)
      (by
        intro avals h
        have he : parseCells c1AvgCol.cells =
            Except.ok [3000000, 2500000, 2000000, 1500000, 1000000, 900000,
              800000, 700000, 600000, 500000] := by decide
        rw [he] at h
        injection h with h
        subst h
        decide),
   C1_payroll_column_selection.2 [c1PayCol, c1TeamCol, c1AvgCol] "Team"
      ⟨"TotalPayroll", 120000000, 2⟩ (by decide)⟩

end Claims5

namespace Scraper

theorem comLoop_inspected {α : Type} (clock : ℕ → ℤ) (t0 budget : ℤ) :
    ∀ (l : List (CommentBlock α)) (acc : List (String × α)) (clk count : ℕ),
      (comLoop clock t0 budget l acc clk count).2 ≤ 50 - count := by
  intro l
  induction l with
  | nil => intro acc clk count; simp [comLoop]
  | cons cb rest ih =>
    intro acc clk count
    simp only [comLoop]
    split
    · simp
    · split
      · simp
      · rename_i hclk hcap
        have h1 := ih (comStep acc cb) (clk + 1) (count + 1)
        simp only []
        omega

theorem lookupTbl_dictInsert_preserved {α : Type} {acc : List (String × α)}
    {k : String} {v : α} {id : String} {val : α}
    (h : lookupTbl acc id = some val)
    (hk : acc.any (fun p => p.1 == k) = false) :
    lookupTbl (dictInsert acc k v) id = some val := by
  simp only [dictInsert, hk]
  rw [if_neg (by simp [hk])]
  simp only [lookupTbl] at h ⊢
  obtain ⟨p, hp, hv⟩ := Option.map_eq_some'.1 h
  rw [List.find?_append, hp]
  simp [hv]

theorem lookupTbl_comStep_preserved {α : Type} {acc : List (String × α)}
    {cb : CommentBlock α} {id : String} {val : α}
    (h : lookupTbl acc id = some val) :
    lookupTbl (comStep acc cb) id = some val := by
  simp only [comStep]
  split
  · exact h
  · split
    · exact h
    · -- fold over the items
      suffices hfold : ∀ (items : List (String × Option α)) (a : List (String × α)),
          lookupTbl a id = some val →
          lookupTbl (items.foldl (fun a it =>
            match it with
            | (tid, some df) =>
              if tid ≠ "" && !(a.any (fun p => p.1 == tid)) then dictInsert a tid df else a
            | (_, none) => a) a) id = some val from hfold cb.items acc h
      intro items
      induction items with
      | nil => intro a ha; exact ha
      | cons it rest ih =>
        intro a ha
        cases it with
        | mk tid df? =>
          cases df? with
          | none => exact ih a ha
          | some df =>
            simp only [List.foldl_cons]
            by_cases hc : (tid ≠ "" && !(a.any (fun p => p.1 == tid))) = true
            · rw [if_pos hc]
              refine ih _ (lookupTbl_dictInsert_preserved ha ?_)
              simp only [Bool.and_eq_true, Bool.not_eq_true'] at hc
              exact hc.2
            · rw [if_neg hc]
              exact ih a ha

theorem comLoop_preserves {α : Type} (clock : ℕ → ℤ) (t0 budget : ℤ) :
    ∀ (l : List (CommentBlock α)) (acc : List (String × α)) (clk count : ℕ)
      (id : String) (val : α), lookupTbl acc id = some val →
      lookupTbl (comLoop clock t0 budget l acc clk count).1 id = some val := by
  intro l
  induction l with
  | nil => intro acc clk count id val h; simpa [comLoop] using h
  | cons cb rest ih =>
    intro acc clk count id val h
    simp only [comLoop]
    split
    · exact h
    · split
      · exact h
      · exact ih _ _ _ _ _ (lookupTbl_comStep_preserved h)

theorem visLoop_prefix {α : Type} (clock : ℕ → ℤ) (t0 budget : ℤ) :
    ∀ (l : List (VisEntry α)) (acc : List (String × α)) (clk : ℕ),
      ∃ k ≤ l.length, (visLoop clock t0 budget l acc clk).1 = visAccum (l.take k) acc := by
  intro l
  induction l with
  | nil =>
    intro acc clk
    exact ⟨0, by simp, by simp [visLoop, visAccum]⟩
  | cons e rest ih =>
    intro acc clk
    simp only [visLoop]
    split
    · exact ⟨0, by simp, by simp [visAccum]⟩
    · obtain ⟨k, hk, heq⟩ := ih (visStep acc e) (clk + 1)
      exact ⟨k + 1, by simpa using hk, by simpa [visAccum] using heq⟩

theorem comLoop_prefix {α : Type} (clock : ℕ → ℤ) (t0 budget : ℤ) :
    ∀ (l : List (CommentBlock α)) (acc : List (String × α)) (clk count : ℕ),
      ∃ k ≤ l.length, (comLoop clock t0 budget l acc clk count).1 =
        comAccum (l.take k) acc count := by
  intro l
  induction l with
  | nil =>
    intro acc clk count
    exact ⟨0, by simp, by simp [comLoop, comAccum]⟩
  | cons cb rest ih =>
    intro acc clk count
    simp only [comLoop]
    split
    · exact ⟨0, by simp, by simp [comAccum]⟩
    · split
      · rename_i hclk hcap
        refine ⟨1, by simp, ?_⟩
        simp only [List.take_succ_cons, List.take_zero, comAccum]
        rw [if_pos hcap]
      · rename_i hclk hcap
        obtain ⟨k, hk, heq⟩ := ih (comStep acc cb) (clk + 1) (count + 1)
        refine ⟨k + 1, by simpa using hk, ?_⟩
        simp only [List.take_succ_cons, comAccum]
        rw [if_neg hcap]
        simpa using heq

end Scraper

namespace Scraper

/-- **C9.** `get_all_tables` inspects at most 50 comment blocks (the hard
cap), checks the elapsed time before each unit of work and, when the budget
is exceeded mid-scan, returns the dictionary accumulated so far — on every
input its result is the accumulation over *some* prefix of the visible
tables and *some* capped prefix of the comments, it never raises, and a
table id found in the visible-DOM pass keeps its visible value (it is never
reprocessed from comments). -/
theorem C9_bounded_discovery :
    ∀ (α : Type) (pageOk : Bool) (visible : List (VisEntry α))
      (comments : List (CommentBlock α)) (clock : ℕ → ℤ) (budget : ℤ),
      (get_all_tables pageOk visible comments clock budget).commentsInspected ≤ 50 ∧
      (∃ kv ≤ visible.length, ∃ kc ≤ comments.length,
        (get_all_tables pageOk visible comments clock budget).tables =
          comAccum (comments.take kc) (visAccum (visible.take kv) []) 0) ∧
      (pageOk = true →
        ¬(budget < clock 1 - clock 0) →
        ∀ id v, lookupTbl (visLoop clock (clock 0) budget visible [] 2).1 id = some v →
          lookupTbl (get_all_tables pageOk visible comments clock budget).tables id =
            some v) := by
  intro α pageOk visible comments clock budget
  cases pageOk with
  | false =>
    refine ⟨by simp [get_all_tables], ⟨0, by simp, 0, by simp, ?_⟩, ?_⟩
    · simp [get_all_tables, visAccum, comAccum]
    · intro h; cases h
  | true =>
    by_cases hb : budget < clock 1 - clock 0
    · refine ⟨?_, ⟨0, by simp, 0, by simp, ?_⟩, ?_⟩
      · simp [get_all_tables, hb]
      · simp [get_all_tables, hb, visAccum, comAccum]
      · intro _ hb2; exact absurd hb hb2
    · rcases hv : visLoop clock (clock 0) budget visible [] 2 with ⟨tv, clk2, timedOut⟩
      obtain ⟨kv, hkv, hveq⟩ := visLoop_prefix clock (clock 0) budget visible [] 2
      rw [hv] at hveq
      cases timedOut with
      | true =>
        have hres : get_all_tables true visible comments clock budget =
            ⟨tv, 0⟩ := by
          simp [get_all_tables, hb, hv]
        refine ⟨by simp [hres], ⟨kv, hkv, 0, by simp, ?_⟩, ?_⟩
        · rw [hres]
          simpa [comAccum] using hveq
        · intro _ _ id v hid
          rw [hres]
          exact hid
      | false =>
        have hres : get_all_tables true visible comments clock budget =
            ⟨(comLoop clock (clock 0) budget comments tv clk2 0).1,
             (comLoop clock (clock 0) budget comments tv clk2 0).2⟩ := by
          simp [get_all_tables, hb, hv]
        obtain ⟨kc, hkc, hceq⟩ := comLoop_prefix clock (clock 0) budget comments tv clk2 0
        refine ⟨?_, ⟨kv, hkv, kc, hkc, ?_⟩, ?_⟩
        · rw [hres]
          simpa using comLoop_inspected clock (clock 0) budget comments tv clk2 0
        · rw [hres]
          dsimp only at hveq ⊢
          rw [hceq, hveq]
        · intro _ _ id v hid
          rw [hres]
          dsimp only at hid
          exact comLoop_preserves clock (clock 0) budget comments tv clk2 0 id v hid

end Scraper

namespace Scraper

/-- C9 witness fixture: one visible table `"t1"`, one comment block that
carries both a clashing `"t1"` and a fresh `"t2"`. -/
def c9Visible : List (VisEntry ℕ) := [⟨"t1", some 1⟩]

def c9Comments : List (CommentBlock ℕ) :=
  [⟨true, true, [("t1", some 2), ("t2", some 3)]⟩]

end Scraper

section Claims6

open Scraper

/-- Witness for C9 on a concrete page with a constant clock: the cap holds
and the visible-pass `"t1"` is not overwritten by the comment's `"t1"`. -/
theorem C9_bounded_discovery_witness :
    (get_all_tables true c9Visible c9Comments (fun _ => 0) 60).commentsInspected ≤ 50 ∧
    lookupTbl (get_all_tables true c9Visible c9Comments (fun _ => 0) 60).tables "t1" =
      some 1 :=
  ⟨(C9_bounded_discovery ℕ true c9Visible c9Comments (fun _ => 0) 60).1,
   (C9_bounded_discovery ℕ true c9Visible c9Comments (fun _ => 0) 60).2.2 rfl
     (by decide) "t1" 1 (by decide)⟩

end Claims6

namespace Py

/-- The decimal digit string of a natural number (used to state what
"the plain decimal string of `n`" means). -/
def decimalDigits (n : ℕ) : List Char :=
  if n = 0 then ['0'] else (Nat.digits 10 n).reverse.map digChar

/-- The plain decimal string of an integer. -/
def intDecimalRepr (n : ℤ) : String :=
  String.mk (if n < 0 then '-' :: decimalDigits n.natAbs else decimalDigits n.natAbs)

theorem digChar_toNat {d : ℕ} (h : d < 10) : (digChar d).toNat = 48 + d := by
  interval_cases d <;> decide

theorem isDig_digChar {d : ℕ} (h : d < 10) : isDig (digChar d) = true := by
  interval_cases d <;> decide

theorem digVal_digChar {d : ℕ} (h : d < 10) : digVal (digChar d) = d := by
  interval_cases d <;> decide

theorem isDig_bounds {c : Char} (h : isDig c = true) : 48 ≤ c.toNat ∧ c.toNat ≤ 57 := by
  simpa [isDig] using h

theorem isDig_decimalDigits (n : ℕ) : ∀ c ∈ decimalDigits n, isDig c = true := by
  intro c hc
  simp only [decimalDigits] at hc
  split at hc
  · simp at hc
    subst hc
    decide
  · simp only [List.mem_map, List.mem_reverse] at hc
    obtain ⟨d, hd, rfl⟩ := hc
    exact isDig_digChar (Nat.digits_lt_base (by norm_num) hd)

theorem decimalDigits_ne_nil (n : ℕ) : decimalDigits n ≠ [] := by
  simp only [decimalDigits]
  split
  · simp
  · rename_i h
    simp only [ne_eq, List.map_eq_nil_iff, List.reverse_eq_nil_iff]
    exact Nat.digits_ne_nil_iff_ne_zero.2 h

theorem log2fuel_spec : ∀ (f n : ℕ), 1 ≤ n → n ≤ f →
    2 ^ log2fuel f n ≤ n ∧ n < 2 ^ (log2fuel f n + 1) := by
  intro f
  induction f with
  | zero => intro n h1 h2; omega
  | succ f ih =>
    intro n h1 h2
    simp only [log2fuel]
    by_cases hle : n ≤ 1
    · rw [if_pos hle]
      constructor
      · simpa using h1
      · have : n = 1 := by omega
        simp [this]
    · rw [if_neg hle]
      have hrec := ih (n / 2) (by omega) (by omega)
      obtain ⟨hlo, hhi⟩ := hrec
      rw [pow_succ, pow_succ] at *
      constructor
      · set a := 2 ^ log2fuel f (n / 2)
        omega
      · set a := 2 ^ log2fuel f (n / 2)
        omega

theorem log2floor_spec {n : ℕ} (h : 1 ≤ n) :
    2 ^ log2floor n ≤ n ∧ n < 2 ^ (log2floor n + 1) :=
  log2fuel_spec n n h le_rfl

end Py

namespace Py

theorem floorLog2Frac_int {n : ℕ} (h : 1 ≤ n) :
    floorLog2Frac n 1 = (log2floor n : ℤ) := by
  have h1 : log2floor 1 = 0 := by decide
  simp only [floorLog2Frac, h1]
  have hc : ((log2floor n : ℤ) - (0 : ℕ)) = (log2floor n : ℤ) := by simp
  rw [hc]
  rw [if_pos ?_]
  simp only [fracGePow2]
  rw [if_pos (by positivity)]
  simpa using (log2floor_spec h).1

theorem roundTiesEvenDiv_one (a : ℕ) : roundTiesEvenDiv a 1 = a := by
  simp [roundTiesEvenDiv, Nat.mod_one]

theorem doubleRoundPos_small {n : ℕ} (h1 : 1 ≤ n) (h2 : n < 2 ^ 53) :
    doubleRoundPos n 1 =
      some (n * 2 ^ (52 - log2floor n), (log2floor n : ℤ) - 52) := by
  obtain ⟨hlo, hhi⟩ := log2floor_spec h1
  have hL : log2floor n ≤ 52 := by
    by_contra hcon
    push_neg at hcon
    have : (2 : ℕ) ^ 53 ≤ 2 ^ log2floor n := Nat.pow_le_pow_right (by norm_num) hcon
    omega
  have hv53 : n * 2 ^ (52 - log2floor n) < 2 ^ 53 := by
    calc n * 2 ^ (52 - log2floor n)
        < 2 ^ (log2floor n + 1) * 2 ^ (52 - log2floor n) := by
          exact (Nat.mul_lt_mul_right (Nat.pos_pow_of_pos _ (by norm_num))).mpr hhi
      _ = 2 ^ 53 := by
          rw [← pow_add]
          congr 1
          omega
  simp only [doubleRoundPos, floorLog2Frac_int h1]
  have hs : max ((log2floor n : ℤ) - 52) (-1074) = (log2floor n : ℤ) - 52 :=
    max_eq_left (by omega)
  rw [hs]
  by_cases hz : (0 : ℤ) ≤ (log2floor n : ℤ) - 52
  · have hL52 : log2floor n = 52 := by omega
    rw [if_pos hz]
    have ht : ((log2floor n : ℤ) - 52).toNat = 0 := by omega
    rw [ht]
    rw [show (1 : ℕ) * 2 ^ 0 = 1 by norm_num]
    rw [roundTiesEvenDiv_one]
    have hfalse : dyadicGePow2 n ((log2floor n : ℤ) - 52) 1024 = false := by
      simp only [dyadicGePow2]
      rw [if_neg (by omega)]
      simp only [decide_eq_false_iff_not, not_le]
      calc n < 2 ^ 53 := h2
        _ ≤ 2 ^ (1024 - ((log2floor n : ℤ) - 52)).toNat :=
          Nat.pow_le_pow_right (by norm_num) (by omega)
    rw [hfalse]
    simp [hL52]
  · rw [if_neg hz]
    have ht : (-(((log2floor n : ℤ)) - 52)).toNat = 52 - log2floor n := by omega
    rw [ht, roundTiesEvenDiv_one]
    have hfalse : dyadicGePow2 (n * 2 ^ (52 - log2floor n))
        ((log2floor n : ℤ) - 52) 1024 = false := by
      simp only [dyadicGePow2]
      rw [if_neg (by omega)]
      simp only [decide_eq_false_iff_not, not_le]
      calc n * 2 ^ (52 - log2floor n) < 2 ^ 53 := hv53
        _ ≤ 2 ^ (1024 - ((log2floor n : ℤ) - 52)).toNat :=
          Nat.pow_le_pow_right (by norm_num) (by omega)
    rw [hfalse]
    simp

theorem floatOfDecimal_nat (neg : Bool) {n : ℕ} (h2 : n < 2 ^ 53) (h0 : n ≠ 0) :
    floatOfDecimal neg n 0 =
      .finite neg (n * 2 ^ (52 - log2floor n)) ((log2floor n : ℤ) - 52) := by
  simp only [floatOfDecimal]
  rw [if_pos le_rfl]
  simp only [Int.toNat_zero, pow_zero, mul_one, mkFloat]
  rw [if_neg h0]
  rw [doubleRoundPos_small (by omega) h2]

theorem pyIntOfFloat_decimal (neg : Bool) {n : ℕ} (h2 : n < 2 ^ 53) :
    pyIntOfFloat (floatOfDecimal neg n 0) =
      .ok (if neg then -(n : ℤ) else (n : ℤ)) := by
  by_cases h0 : n = 0
  · subst h0
    simp [floatOfDecimal, mkFloat, pyIntOfFloat]
  · rw [floatOfDecimal_nat neg h2 h0]
    simp only [pyIntOfFloat]
    by_cases hz : (0 : ℤ) ≤ (log2floor n : ℤ) - 52
    · rw [if_pos hz]
      have ht : ((log2floor n : ℤ) - 52).toNat = 0 := by
        have hL : log2floor n ≤ 52 := by
          obtain ⟨hlo, hhi⟩ := log2floor_spec (by omega : 1 ≤ n)
          by_contra hcon
          push_neg at hcon
          have : (2 : ℕ) ^ 53 ≤ 2 ^ log2floor n := Nat.pow_le_pow_right (by norm_num) hcon
          omega
        omega
      rw [ht]
      have hL52 : log2floor n = 52 := by omega
      simp [hL52]
    · rw [if_neg hz]
      have ht : (-(((log2floor n : ℤ)) - 52)).toNat = 52 - log2floor n := by omega
      rw [ht]
      rw [Nat.mul_div_cancel _ (Nat.pos_pow_of_pos _ (by norm_num))]

end Py

namespace Py

theorem isSpaceChar_of_isDig {c : Char} (h : isDig c = true) : isSpaceChar c = false := by
  obtain ⟨h1, h2⟩ := isDig_bounds h
  simp only [isSpaceChar, Bool.or_eq_false_iff, decide_eq_false_iff_not]
  omega

theorem pstrip_eq_self {l : List Char} (h : ∀ c ∈ l, isSpaceChar c = false) :
    pstrip l = l := by
  have hdrop : ∀ (m : List Char), (∀ c ∈ m, isSpaceChar c = false) →
      m.dropWhile isSpaceChar = m := by
    intro m hm
    cases m with
    | nil => rfl
    | cons c t =>
      rw [List.dropWhile_cons, if_neg (by simp [hm c (List.mem_cons_self _ _)])]
  simp only [pstrip]
  rw [hdrop l h]
  rw [hdrop l.reverse (fun c hc => h c (List.mem_reverse.1 hc))]
  exact List.reverse_reverse l

theorem removeAll_eq_self (ch : Char) {l : List Char} (h : ∀ c ∈ l, c ≠ ch) :
    removeAll ch l = l := by
  simp only [removeAll]
  rw [List.filter_eq_self]
  intro a ha
  simpa using h a ha

theorem lowerChar_of_isDig {c : Char} (h : isDig c = true) : lowerChar c = c := by
  obtain ⟨h1, h2⟩ := isDig_bounds h
  simp only [lowerChar]
  rw [if_neg (by simp; omega)]

theorem groupGo_digits : ∀ (R : List ℕ) (acc cnt : ℕ), (∀ d ∈ R, d < 10) →
    groupGo acc cnt (R.map digChar) =
      (R.foldl (fun a d => a * 10 + d) acc, cnt + R.length, []) := by
  intro R
  induction R with
  | nil => intro acc cnt h; simp [groupGo]
  | cons d T ih =>
    intro acc cnt h
    have hd : d < 10 := h d (List.mem_cons_self _ _)
    rw [List.map_cons, groupGo.eq_def]
    simp only []
    rw [if_pos (isDig_digChar hd), digVal_digChar hd]
    rw [ih _ _ (fun x hx => h x (List.mem_cons_of_mem _ hx))]
    simp only [List.foldl_cons, List.length_cons, Prod.mk.injEq]
    refine ⟨by trivial, by omega, by trivial⟩

theorem foldl_base10 : ∀ (L : List ℕ) (acc : ℕ),
    L.reverse.foldl (fun a d => a * 10 + d) acc =
      acc * 10 ^ L.length + Nat.ofDigits 10 L := by
  intro L
  induction L with
  | nil => intro acc; simp [Nat.ofDigits]
  | cons d T ih =>
    intro acc
    simp only [List.reverse_cons, List.foldl_append, List.foldl_cons, List.foldl_nil, ih]
    rw [Nat.ofDigits_cons, List.length_cons]
    push_cast
    ring

theorem parseGroup_decimalDigits (n : ℕ) :
    ∃ cnt, parseGroup (decimalDigits n) = some (n, cnt, []) := by
  by_cases h0 : n = 0
  · subst h0
    exact ⟨1, by decide⟩
  · have hdig : ∀ d ∈ (Nat.digits 10 n).reverse, d < 10 := fun d hd =>
      Nat.digits_lt_base (by norm_num) (List.mem_reverse.1 hd)
    have hform : decimalDigits n = (Nat.digits 10 n).reverse.map digChar := by
      simp [decimalDigits, h0]
    refine ⟨(Nat.digits 10 n).length, ?_⟩
    rw [hform]
    cases hR : (Nat.digits 10 n).reverse.map digChar with
    | nil =>
      exfalso
      have := decimalDigits_ne_nil n
      rw [hform] at this
      exact this hR
    | cons c t =>
      simp only [parseGroup]
      have hc : isDig c = true := by
        have : c ∈ (Nat.digits 10 n).reverse.map digChar := by
          rw [hR]; exact List.mem_cons_self _ _
        simp only [List.mem_map] at this
        obtain ⟨d, hd, rfl⟩ := this
        exact isDig_digChar (Nat.digits_lt_base (by norm_num) (List.mem_reverse.1 hd))
      rw [if_pos hc]
      rw [← hR]
      rw [groupGo_digits _ 0 0 hdig]
      rw [foldl_base10]
      simp [Nat.ofDigits_digits]

theorem parseExp_nil : parseExp [] = some (0, []) := rfl

theorem parseNumber_decimalDigits (n : ℕ) :
    parseNumber (decimalDigits n) = some (n, 0) := by
  obtain ⟨cnt, hg⟩ := parseGroup_decimalDigits n
  simp only [parseNumber, hg]
  rw [if_neg (by simp)]
  rw [parseExp_nil]
  simp

end Py

namespace Py

theorem splitSign_digits {l : List Char} (h : ∀ c ∈ l, isDig c = true) (hne : l ≠ []) :
    splitSign l = (false, l) := by
  cases l with
  | nil => exact absurd rfl hne
  | cons c t =>
    have hc : isDig c = true := h c (List.mem_cons_self _ _)
    simp only [splitSign]
    rw [if_neg (fun he => by rw [he] at hc; exact absurd hc (by decide))]
    rw [if_neg (fun he => by rw [he] at hc; exact absurd hc (by decide))]

theorem lowerChar_lower_fixed {w : Char} (hw : 97 ≤ w.toNat ∧ w.toNat ≤ 122) :
    lowerChar w = w := by
  simp only [lowerChar]
  rw [if_neg (by simp only [Bool.and_eq_true, decide_eq_true_eq, not_and]; omega)]

theorem ciEq_digit_head_false {c : Char} {t ws : List Char} {w : Char}
    (hc : isDig c = true) (hw : 97 ≤ w.toNat ∧ w.toNat ≤ 122) :
    ciEq (c :: t) (w :: ws) = false := by
  simp only [ciEq, lower, List.map_cons]
  rw [beq_eq_false_iff_ne]
  intro heq
  injection heq with h1 _
  rw [lowerChar_of_isDig hc, lowerChar_lower_fixed hw] at h1
  obtain ⟨hb1, hb2⟩ := isDig_bounds hc
  rw [h1] at hb2
  omega

theorem ciEq_decimalDigits_false (n : ℕ) {w : Char} {ws : List Char}
    (hw : 97 ≤ w.toNat ∧ w.toNat ≤ 122) :
    ciEq (decimalDigits n) (w :: ws) = false := by
  cases hct : decimalDigits n with
  | nil => exact absurd hct (decimalDigits_ne_nil n)
  | cons c t =>
    exact ciEq_digit_head_false
      (isDig_decimalDigits n c (hct ▸ List.mem_cons_self _ _)) hw

theorem pyFloatOfChars_decimalDigits (n : ℕ) :
    pyFloatOfChars (decimalDigits n) = some (floatOfDecimal false n 0) := by
  have hdig := isDig_decimalDigits n
  simp only [pyFloatOfChars]
  rw [pstrip_eq_self (fun c hc => isSpaceChar_of_isDig (hdig c hc))]
  rw [splitSign_digits hdig (decimalDigits_ne_nil n)]
  dsimp only
  rw [ciEq_decimalDigits_false n (by decide), ciEq_decimalDigits_false n (by decide),
    ciEq_decimalDigits_false n (by decide)]
  simp only [Bool.or_false, Bool.false_or, if_false]
  rw [parseNumber_decimalDigits n]
  simp

theorem splitSign_neg (l : List Char) : splitSign ('-' :: l) = (true, l) := by
  simp [splitSign]

theorem pyFloatOfChars_negDigits (m : ℕ) :
    pyFloatOfChars ('-' :: decimalDigits m) = some (floatOfDecimal true m 0) := by
  have hdig := isDig_decimalDigits m
  have hs : ∀ c ∈ ('-' :: decimalDigits m), isSpaceChar c = false := by
    intro c hc
    rcases List.mem_cons.1 hc with rfl | hc2
    · decide
    · exact isSpaceChar_of_isDig (hdig c hc2)
  simp only [pyFloatOfChars]
  rw [pstrip_eq_self hs, splitSign_neg]
  dsimp only
  rw [ciEq_decimalDigits_false m (by decide), ciEq_decimalDigits_false m (by decide),
    ciEq_decimalDigits_false m (by decide)]
  simp only [Bool.or_false, Bool.false_or, if_false]
  rw [parseNumber_decimalDigits m]
  simp

end Py

namespace Py

theorem upperChar_of_isDig {c : Char} (h : isDig c = true) : upperChar c = c := by
  obtain ⟨h1, h2⟩ := isDig_bounds h
  simp only [upperChar]
  rw [if_neg (by simp only [Bool.and_eq_true, decide_eq_true_eq, not_and]; omega)]

theorem mem_of_getLast?_eq_some {l : List Char} {a : Char} (h : l.getLast? = some a) :
    a ∈ l := by
  obtain ⟨hne, heq⟩ := List.mem_getLast?_eq_getLast (show a ∈ l.getLast? from by
    rw [h]; rfl)
  rw [heq]
  exact List.getLast_mem hne

theorem lastNotM {l : List Char} (h : ∀ c ∈ l, upperChar c ≠ 'M') :
    ¬(l.getLast?.map upperChar = some 'M') := by
  cases hl : l.getLast? with
  | none => simp
  | some c =>
    simp only [Option.map_some']
    intro he
    injection he with he
    exact h c (mem_of_getLast?_eq_some hl) he

end Py

namespace SalaryCleaning

open Py

theorem digits_ne_of_nondigit {m : ℕ} (target : List Char) (w : Char)
    (hw : w ∈ target) (hwf : isDig w = false) : decimalDigits m ≠ target := by
  intro he
  have := isDig_decimalDigits m w (he ▸ hw)
  rw [this] at hwf
  cases hwf

set_option maxRecDepth 4000 in
/-- `clean_currency` is the identity on the plain decimal string of any
integer of magnitude below `2^53` (the binary64-exact range). -/
theorem clean_currency_decimal {n : ℤ} (h : n.natAbs < 2 ^ 53) :
    clean_currency (intDecimalRepr n) = .ok (some n) := by
  have hdig := isDig_decimalDigits n.natAbs
  have hne1 : decimalDigits n.natAbs ≠ [] := decimalDigits_ne_nil n.natAbs
  by_cases hneg : n < 0
  · -- negative: "-" followed by the digits of |n|
    have hdata : (intDecimalRepr n).data = '-' :: decimalDigits n.natAbs := by
      simp [intDecimalRepr, hneg]
    have hs : ∀ c ∈ ('-' :: decimalDigits n.natAbs), isSpaceChar c = false := by
      intro c hc
      rcases List.mem_cons.1 hc with rfl | hc2
      · decide
      · exact isSpaceChar_of_isDig (hdig c hc2)
    simp only [clean_currency, hdata]
    rw [pstrip_eq_self hs]
    rw [if_neg ?sentinel]
    case sentinel =>
      simp only [Bool.or_eq_true, decide_eq_true_eq, not_or]
      refine ⟨⟨⟨⟨by simp, ?_⟩, ?_⟩, ?_⟩, ?_⟩
      · intro he
        injection he with h1 h2
        exact hne1 h2
      · intro he
        injection he with h1 _
        exact absurd h1 (by decide)
      · intro he
        injection he with h1 _
        exact absurd h1 (by decide)
      · intro he
        injection he with h1 _
        exact absurd h1 (by decide)
    rw [removeAll_eq_self '$' ?dollar]
    case dollar =>
      intro c hc
      rcases List.mem_cons.1 hc with rfl | hc2
      · decide
      · exact fun he => absurd (he ▸ hdig c hc2) (by decide)
    rw [removeAll_eq_self ' ' ?space]
    case space =>
      intro c hc
      rcases List.mem_cons.1 hc with rfl | hc2
      · decide
      · exact fun he => absurd (he ▸ hdig c hc2) (by decide)
    rw [if_neg (lastNotM ?notM)]
    case notM =>
      intro c hc
      rcases List.mem_cons.1 hc with rfl | hc2
      · decide
      · rw [upperChar_of_isDig (hdig c hc2)]
        exact fun he => absurd (he ▸ hdig c hc2) (by decide)
    rw [removeAll_eq_self ',' ?comma]
    case comma =>
      intro c hc
      rcases List.mem_cons.1 hc with rfl | hc2
      · decide
      · exact fun he => absurd (he ▸ hdig c hc2) (by decide)
    rw [pyFloatOfChars_negDigits]
    show (match pyIntOfFloat (floatOfDecimal true n.natAbs 0) with
      | Except.ok k => Except.ok (some k)
      | Except.error PyExc.valueError => Except.ok none
      | Except.error PyExc.overflowError => Except.error PyExc.overflowError) =
        Except.ok (some n)
    rw [pyIntOfFloat_decimal true h]
    show Except.ok (some (if true = true then -(n.natAbs : ℤ) else (n.natAbs : ℤ))) =
      Except.ok (some n)
    rw [if_pos rfl]
    have hv : -(n.natAbs : ℤ) = n := by omega
    rw [hv]
  · -- non-negative: just the digits
    have hdata : (intDecimalRepr n).data = decimalDigits n.natAbs := by
      simp [intDecimalRepr, hneg]
    simp only [clean_currency, hdata]
    rw [pstrip_eq_self (fun c hc => isSpaceChar_of_isDig (hdig c hc))]
    rw [if_neg ?sentinel2]
    case sentinel2 =>
      simp only [Bool.or_eq_true, decide_eq_true_eq, not_or]
      exact ⟨⟨⟨⟨hne1,
        digits_ne_of_nondigit _ '-' (by decide) (by decide)⟩,
        digits_ne_of_nondigit _ 'N' (by decide) (by decide)⟩,
        digits_ne_of_nondigit _ 'a' (by decide) (by decide)⟩,
        digits_ne_of_nondigit _ 'N' (by decide) (by decide)⟩
    rw [removeAll_eq_self '$'
      (fun c hc he => absurd (he ▸ hdig c hc) (by decide))]
    rw [removeAll_eq_self ' '
      (fun c hc he => absurd (he ▸ hdig c hc) (by decide))]
    rw [if_neg (lastNotM ?notM2)]
    case notM2 =>
      intro c hc
      rw [upperChar_of_isDig (hdig c hc)]
      exact fun he => absurd (he ▸ hdig c hc) (by decide)
    rw [removeAll_eq_self ','
      (fun c hc he => absurd (he ▸ hdig c hc) (by decide))]
    rw [pyFloatOfChars_decimalDigits]
    show (match pyIntOfFloat (floatOfDecimal false n.natAbs 0) with
      | Except.ok k => Except.ok (some k)
      | Except.error PyExc.valueError => Except.ok none
      | Except.error PyExc.overflowError => Except.error PyExc.overflowError) =
        Except.ok (some n)
    rw [pyIntOfFloat_decimal false h]
    show Except.ok (some (if false = true then -(n.natAbs : ℤ) else (n.natAbs : ℤ))) =
      Except.ok (some n)
    rw [if_neg (by simp)]
    have hv : (n.natAbs : ℤ) = n := by omega
    rw [hv]

end SalaryCleaning

section Claims7

open Py SalaryCleaning

set_option maxRecDepth 10000

/-- **C6, amended.** `clean_currency` parses `"$1,234,567"`, `"1234567"`
and `"1.234567M"` all to `1234567`, and `"$71,860,921"` to `71860921`; it is
the identity on the plain decimal string of every integer of magnitude
below `2^53` — but not beyond, because CPython's `int(float(s))` rounds
through binary64 (see the counterexample at `2^53 + 1`). -/
theorem C6_currency_parsing :
    clean_currency "$1,234,567" = .ok (some 1234567) ∧
    clean_currency "1234567" = .ok (some 1234567) ∧
    clean_currency "1.234567M" = .ok (some 1234567) ∧
    clean_currency "$71,860,921" = .ok (some 71860921) ∧
    ∀ n : ℤ, n.natAbs < 2 ^ 53 → clean_currency (intDecimalRepr n) = .ok (some n) :=
  ⟨by decide, by decide, by decide, by decide, fun _ h => clean_currency_decimal h⟩

/-- Witness for C6's universal part at the concrete integer `71860921`. -/
theorem C6_currency_parsing_witness :
    ((71860921 : ℤ).natAbs < 2 ^ 53) ∧
    clean_currency (intDecimalRepr 71860921) = .ok (some 71860921) :=
  ⟨by decide, C6_currency_parsing.2.2.2.2 71860921 (by decide)⟩

end Claims7
